import Mathlib

/-!
Verification of the interactive-element hover/button registry of the SIFL
GUI library (src/GUI/BasicInterface, MutableInterface, InteractiveInterface).

The C++ classes are shallowly embedded: the contiguous widget vectors become
`List Widget`, the `std::unordered_map`s become association lists with
distinct keys, machine indices become `Nat`, and fallible code paths
(assertion failures, out-of-range accesses, dereferences of dangling
iterators or null pointers) return `Option`, with `none` marking the
assert/undefined-behaviour outcome.  Geometry (widget bounding boxes and
point containment) is consumed from the excluded rendering collaborator and
is modelled as stored integer rectangles with a decidable membership test.
-/

namespace SIFL

/-- A 2D position (the cursor position handed to the event functions). -/
structure Vec2 where
  x : Int
  y : Int
deriving DecidableEq, Repr

/-- An axis-aligned bounding rectangle: the widget's global bounds as
reported by the rendering collaborator (`getGlobalBounds()`). -/
structure Rect where
  px : Int
  py : Int
  sx : Int
  sy : Int
deriving DecidableEq, Repr

/-- Point membership of a bounding rectangle (`sf::FloatRect::contains`). -/
def Rect.containsPos (r : Rect) (p : Vec2) : Bool :=
  decide (r.px ≤ p.x) && decide (p.x < r.px + r.sx) &&
  decide (r.py ≤ p.y) && decide (p.y < r.py + r.sy)

/-- A widget record (`TransformableWrapper` payload as far as the registry
observes it): the public `hide` flag, the bounding region consumed from the
rendering collaborator, and the displayed content string.

`interactive` is a ghost instrumentation field that does not exist in the
C++ record: it is set exactly when `addInteractive` promotes the widget and
is read by no operation translated from the source.  It only serves to
state the partition invariant (slots below the boundary hold promoted
widgets) non-circularly. -/
structure Widget where
  interactive : Bool
  hide : Bool
  bounds : Rect
  content : String
deriving DecidableEq, Repr

/-! ### Association lists standing for the `std::unordered_map`s -/

/-- Lookup (`map.find(k)`), first matching key. -/
def alookup {α β : Type} [DecidableEq α] : List (α × β) → α → Option β
  | [], _ => none
  | (k, v) :: rest, a => if a = k then some v else alookup rest a

/-- `map[k] = v` / `insert_or_assign`: overwrite the first entry with key
`k`, or append a fresh entry when the key is absent. -/
def aset {α β : Type} [DecidableEq α] : List (α × β) → α → β → List (α × β)
  | [], k, v => [(k, v)]
  | (k', v') :: rest, k, v =>
      if k = k' then (k, v) :: rest else (k', v') :: aset rest k v

/-- `map.erase(k)`: drop the first entry with key `k`. -/
def aerase {α β : Type} [DecidableEq α] : List (α × β) → α → List (α × β)
  | [], _ => []
  | (k', v') :: rest, k => if k = k' then rest else (k', v') :: aerase rest k

/-- The keys of an association list. -/
def akeys {α β : Type} (m : List (α × β)) : List α :=
  m.map Prod.fst

section AssocLemmas

variable {α β : Type} [DecidableEq α]

theorem alookup_aset_self (m : List (α × β)) (k : α) (v : β) :
    alookup (aset m k v) k = some v := by
  induction m with
  | nil => simp [aset, alookup]
  | cons hd tl ih =>
      obtain ⟨k', v'⟩ := hd
      by_cases h : k = k' <;> simp [aset, alookup, h, ih]

theorem alookup_aset_ne (m : List (α × β)) {k k' : α} (v : β) (h : k' ≠ k) :
    alookup (aset m k v) k' = alookup m k' := by
  induction m with
  | nil => simp [aset, alookup, h]
  | cons hd tl ih =>
      obtain ⟨k₀, v₀⟩ := hd
      by_cases hk : k = k₀
      · subst hk; simp [aset, alookup, h]
      · by_cases hk' : k' = k₀ <;> simp [aset, alookup, hk, hk', ih]

theorem alookup_aerase_ne (m : List (α × β)) {k k' : α} (h : k' ≠ k) :
    alookup (aerase m k) k' = alookup m k' := by
  induction m with
  | nil => simp [aerase]
  | cons hd tl ih =>
      obtain ⟨k₀, v₀⟩ := hd
      by_cases hk : k = k₀
      · subst hk; simp [aerase, alookup, h]
      · by_cases hk' : k' = k₀ <;> simp [aerase, alookup, hk, hk', ih]

theorem alookup_none_of_not_mem_akeys {m : List (α × β)} {k : α}
    (h : k ∉ akeys m) : alookup m k = none := by
  induction m with
  | nil => rfl
  | cons hd tl ih =>
      obtain ⟨k₀, v₀⟩ := hd
      simp only [akeys, List.map_cons, List.mem_cons] at h
      push_neg at h
      simp [alookup, h.1, ih (by simpa [akeys] using h.2)]

theorem alookup_aerase_self {m : List (α × β)} {k : α}
    (h : (akeys m).Nodup) : alookup (aerase m k) k = none := by
  induction m with
  | nil => rfl
  | cons hd tl ih =>
      obtain ⟨k₀, v₀⟩ := hd
      simp only [akeys, List.map_cons, List.nodup_cons] at h
      by_cases hk : k = k₀
      · subst hk
        simpa [aerase] using alookup_none_of_not_mem_akeys h.1
      · simp [aerase, alookup, hk, ih h.2]

theorem mem_akeys_of_alookup {m : List (α × β)} {k : α} {v : β}
    (h : alookup m k = some v) : k ∈ akeys m := by
  induction m with
  | nil => simp [alookup] at h
  | cons hd tl ih =>
      obtain ⟨k₀, v₀⟩ := hd
      by_cases hk : k = k₀
      · simp [akeys, hk]
      · simp only [alookup, if_neg hk] at h
        simp only [akeys, List.map_cons, List.mem_cons]
        exact Or.inr (ih h)

theorem akeys_aset_of_mem {m : List (α × β)} {k : α} (v : β)
    (h : k ∈ akeys m) : akeys (aset m k v) = akeys m := by
  induction m with
  | nil => simp [akeys] at h
  | cons hd tl ih =>
      obtain ⟨k₀, v₀⟩ := hd
      by_cases hk : k = k₀
      · simp [aset, hk, akeys]
      · simp only [akeys, List.map_cons, List.mem_cons] at h
        rcases h with h | h
        · exact absurd h hk
        · simp only [aset, if_neg hk, akeys, List.map_cons, List.cons.injEq, true_and]
          exact ih h

theorem akeys_aset_of_not_mem {m : List (α × β)} {k : α} (v : β)
    (h : k ∉ akeys m) : akeys (aset m k v) = akeys m ++ [k] := by
  induction m with
  | nil => simp [aset, akeys]
  | cons hd tl ih =>
      obtain ⟨k₀, v₀⟩ := hd
      simp only [akeys, List.map_cons, List.mem_cons] at h
      push_neg at h
      simp only [aset, if_neg h.1, akeys, List.map_cons, List.cons_append,
        List.cons.injEq, true_and]
      exact ih (by simpa [akeys] using h.2)

theorem nodup_akeys_aset {m : List (α × β)} {k : α} (v : β)
    (h : (akeys m).Nodup) : (akeys (aset m k v)).Nodup := by
  by_cases hmem : k ∈ akeys m
  · rw [akeys_aset_of_mem v hmem]
    exact h
  · rw [akeys_aset_of_not_mem v hmem]
    simp [List.nodup_append, h, hmem]

theorem sublist_aerase (m : List (α × β)) (k : α) : (aerase m k).Sublist m := by
  induction m with
  | nil => simp [aerase]
  | cons hd tl ih =>
      obtain ⟨k₀, v₀⟩ := hd
      by_cases hk : k = k₀
      · simp [aerase, hk]
      · simpa [aerase, hk] using List.Sublist.cons₂ (k₀, v₀) ih

theorem nodup_akeys_aerase {m : List (α × β)} (k : α)
    (h : (akeys m).Nodup) : (akeys (aerase m k)).Nodup :=
  List.Nodup.sublist (List.Sublist.map Prod.fst (sublist_aerase m k)) h

end AssocLemmas

/-! ### Swapping two vector slots -/

/-- `std::swap(vector[i], vector[j])`.  Out-of-range indexes leave the list
unchanged; the callers below check ranges before swapping. -/
def listSwap {α : Type} (l : List α) (i j : Nat) : List α :=
  match l[i]?, l[j]? with
  | some a, some b => (l.set i b).set j a
  | _, _ => l

/-- The transposition of two indexes. -/
def transp (i j k : Nat) : Nat :=
  if k = i then j else if k = j then i else k

theorem transp_left (i j : Nat) : transp i j i = j := by simp [transp]

theorem transp_right (i j : Nat) : transp i j j = i := by
  by_cases h : j = i <;> simp [transp, h]

theorem transp_other {i j k : Nat} (h1 : k ≠ i) (h2 : k ≠ j) :
    transp i j k = k := by simp [transp, h1, h2]

theorem transp_lt {i j k n : Nat} (hi : i < n) (hj : j < n) (hk : k < n) :
    transp i j k < n := by
  unfold transp
  split
  · exact hj
  · split
    · exact hi
    · exact hk

@[simp] theorem listSwap_length {α : Type} (l : List α) (i j : Nat) :
    (listSwap l i j).length = l.length := by
  unfold listSwap
  split <;> simp

theorem listSwap_getElem? {α : Type} {l : List α} {i j : Nat}
    (hi : i < l.length) (hj : j < l.length) (k : Nat) :
    (listSwap l i j)[k]? = l[transp i j k]? := by
  have hred : listSwap l i j = (l.set i l[j]).set j l[i] := by
    unfold listSwap
    rw [List.getElem?_eq_getElem hi, List.getElem?_eq_getElem hj]
  rw [hred]
  by_cases hkj : k = j
  · subst hkj
    rw [transp_right, List.getElem?_set_self (by simpa using hj),
      List.getElem?_eq_getElem hi]
  · rw [List.getElem?_set_ne (Ne.symm hkj)]
    by_cases hki : k = i
    · subst hki
      rw [transp_left, List.getElem?_set_self hi, List.getElem?_eq_getElem hj]
    · rw [List.getElem?_set_ne (Ne.symm hki), transp_other hki hkj]

/-! ### One widget category of a `MutableInterface`

`Cat` collects, for one category (texts or sprites), the contiguous widget
vector, the identifier map (`m_dynamicTexts` / `m_dynamicSprites`,
identifier to slot index) and the reverse index map
(`m_indexesForEachDynamicTexts` / `m_indexesForEachDynamicSprites`, slot
index to the identifier-map entry; the C++ stores an iterator into the
identifier map, represented here by the entry's key). -/
structure Cat where
  elems : List Widget
  idMap : List (String × Nat)
  idxMap : List (Nat × String)
deriving DecidableEq, Repr

/-- The empty category. -/
def Cat.empty : Cat :=
  { elems := [], idMap := [], idxMap := [] }

/-- `MutableInterface::swapElement` (MutableInterface.hpp:286-320).

`none` models a debug-build assertion failure (an out-of-range index, or
calling while the interface is locked), which is undefined behaviour in
release builds; `none` also models writing through a dangling
identifier-map iterator held in the reverse index map (the lookup of the
entry's key fails), which is likewise undefined behaviour in the source.
The arithmetic `newIdx = index2 + index1 - v` is the source's
`+index2 +index1 -dynamicElementIterator->second->second` on `size_t`; in
every state the callers reach, `v` is one of the two swapped indexes, so
the `Nat` truncation never differs from the unsigned arithmetic. -/
def swapElement (lockState : Bool) (index1 index2 : Nat) (c : Cat) : Option Cat :=
  if index1 ≥ c.elems.length then none
  else if index2 ≥ c.elems.length then none
  else if lockState then none
  else if index1 = index2 then some c
  else
    let elems := listSwap c.elems index1 index2
    match alookup c.idxMap index1, alookup c.idxMap index2 with
    | none, none => some { c with elems := elems }
    | some s1, some s2 =>
        some { elems := elems,
               idMap := aset (aset c.idMap s2 index1) s1 index2,
               idxMap := aset (aset c.idxMap index1 s2) index2 s1 }
    | some s1, none =>
        match alookup c.idMap s1 with
        | none => none
        | some v =>
            let newIdx := index2 + index1 - v
            some { elems := elems,
                   idMap := aset c.idMap s1 newIdx,
                   idxMap := aerase (aset c.idxMap newIdx s1) index1 }
    | none, some s2 =>
        match alookup c.idMap s2 with
        | none => none
        | some v =>
            let newIdx := index2 + index1 - v
            some { elems := elems,
                   idMap := aset c.idMap s2 newIdx,
                   idxMap := aerase (aset c.idxMap newIdx s2) index2 }

/-- Consistency of one category: identifier-map and reverse-index-map keys
are duplicate free, identifier-map values are in range of the vector, and
the two maps are mutually inverse (spec section 3, Identifier Index Map and
Reverse Index Map invariants). -/
structure CatInv (c : Cat) : Prop where
  nodupId : (akeys c.idMap).Nodup
  nodupIdx : (akeys c.idxMap).Nodup
  range : ∀ {id i}, alookup c.idMap id = some i → i < c.elems.length
  fwd : ∀ {id i}, alookup c.idMap id = some i → alookup c.idxMap i = some id
  bwd : ∀ {i id}, alookup c.idxMap i = some id → alookup c.idMap id = some i

/-- Executable consistency check mirroring `CatInv`. -/
def catChk (c : Cat) : Bool :=
  (akeys c.idMap).Nodup ∧ (akeys c.idxMap).Nodup ∧
  c.idMap.all (fun e =>
    decide (e.2 < c.elems.length) && decide (alookup c.idxMap e.2 = some e.1)) ∧
  c.idxMap.all (fun e => decide (alookup c.idMap e.2 = some e.1))

theorem alookup_mem {α β : Type} [DecidableEq α] {m : List (α × β)} {k : α}
    {v : β} (h : alookup m k = some v) : (k, v) ∈ m := by
  induction m with
  | nil => simp [alookup] at h
  | cons hd tl ih =>
      obtain ⟨k₀, v₀⟩ := hd
      by_cases hk : k = k₀
      · subst hk
        simp [alookup] at h
        simp [h]
      · simp only [alookup, if_neg hk] at h
        exact List.mem_cons_of_mem _ (ih h)

theorem alookup_of_mem_nodup {α β : Type} [DecidableEq α] {m : List (α × β)}
    {k : α} {v : β} (hnd : (akeys m).Nodup) (h : (k, v) ∈ m) :
    alookup m k = some v := by
  induction m with
  | nil => simp at h
  | cons hd tl ih =>
      obtain ⟨k₀, v₀⟩ := hd
      simp only [akeys, List.map_cons, List.nodup_cons] at hnd
      rcases List.mem_cons.mp h with heq | hmem
      · injection heq with h1 h2
        simp [alookup, h1, h2]
      · by_cases hk : k = k₀
        · subst hk
          exact absurd (show k ∈ List.map Prod.fst tl from
            List.mem_map.mpr ⟨(k, v), hmem, rfl⟩) hnd.1
        · simp only [alookup, if_neg hk]
          exact ih hnd.2 hmem

theorem catChk_sound {c : Cat} (h : catChk c = true) : CatInv c := by
  unfold catChk at h
  simp only [Bool.and_eq_true, decide_eq_true_eq, List.all_eq_true] at h
  obtain ⟨h1, h2, h3, h4⟩ := h
  refine ⟨h1, h2, ?_, ?_, ?_⟩
  · intro id i hl
    exact ((by simpa using h3 _ (alookup_mem hl)) :
      i < c.elems.length ∧ _).1
  · intro id i hl
    exact ((by simpa using h3 _ (alookup_mem hl)) :
      _ ∧ alookup c.idxMap i = some id).2
  · intro i id hl
    simpa using h4 _ (alookup_mem hl)

theorem transp_transp (i j k : Nat) : transp i j (transp i j k) = k := by
  unfold transp
  split_ifs <;> omega

theorem listSwap_self (l : List Widget) (i : Nat) : listSwap l i i = l := by
  by_cases hi : i < l.length
  · refine List.ext_getElem? fun k => ?_
    rw [listSwap_getElem? hi hi]
    by_cases hk : k = i
    · subst hk
      rw [transp_left]
    · rw [transp_other hk hk]
  · unfold listSwap
    rw [List.getElem?_eq_none (by omega)]

/-- What one successful `swapElement` call does to a category: the vector
is transposed at the two indexes and both maps are renamed along that
transposition. -/
def SwapRel (c c' : Cat) (i j : Nat) : Prop :=
  c'.elems = listSwap c.elems i j ∧
  (∀ id, alookup c'.idMap id = (alookup c.idMap id).map (transp i j)) ∧
  (∀ k, alookup c'.idxMap k = alookup c.idxMap (transp i j k)) ∧
  (akeys c'.idMap).Nodup ∧ (akeys c'.idxMap).Nodup

theorem CatInv_of_swapRel {c c' : Cat} (hc : CatInv c) {i j : Nat}
    (hi : i < c.elems.length) (hj : j < c.elems.length)
    (h : SwapRel c c' i j) : CatInv c' := by
  obtain ⟨he, hm, hx, hn1, hn2⟩ := h
  refine ⟨hn1, hn2, ?_, ?_, ?_⟩
  · intro id v hv
    rw [hm id] at hv
    rcases hw : alookup c.idMap id with _ | w
    · rw [hw] at hv; simp at hv
    · rw [hw] at hv
      simp only [Option.map_some', Option.some.injEq] at hv
      have : c'.elems.length = c.elems.length := by rw [he]; simp
      rw [this, ← hv]
      exact transp_lt hi hj (hc.range hw)
  · intro id v hv
    rw [hm id] at hv
    rcases hw : alookup c.idMap id with _ | w
    · rw [hw] at hv; simp at hv
    · rw [hw] at hv
      simp only [Option.map_some', Option.some.injEq] at hv
      rw [hx v, ← hv, transp_transp]
      exact hc.fwd hw
  · intro k id hk
    rw [hx k] at hk
    have := hc.bwd hk
    rw [hm id, this]
    simp [transp_transp]

theorem swapElement_spec {c : Cat} (hc : CatInv c) {i j : Nat}
    (hi : i < c.elems.length) (hj : j < c.elems.length) :
    ∃ c', swapElement false i j c = some c' ∧ SwapRel c c' i j := by
  by_cases hij : i = j
  · subst hij
    refine ⟨c, ?_, ?_, ?_, ?_, hc.nodupId, hc.nodupIdx⟩
    · simp [swapElement, Nat.not_le.mpr hi]
    · rw [listSwap_self]
    · intro id
      rcases hw : alookup c.idMap id with _ | w
      · rfl
      · simp only [Option.map_some', Option.some.injEq]
        by_cases hwi : w = i
        · subst hwi; rw [transp_left]
        · rw [transp_other hwi hwi]
    · intro k
      by_cases hk : k = i
      · subst hk; rw [transp_left]
      · rw [transp_other hk hk]
  · have hne1 : ¬ i ≥ c.elems.length := by omega
    have hne2 : ¬ j ≥ c.elems.length := by omega
    have hfalse : ¬ (false : Bool) = true := Bool.false_ne_true
    rcases h1 : alookup c.idxMap i with _ | s1 <;>
      rcases h2 : alookup c.idxMap j with _ | s2
    · -- neither slot is dynamic
      refine ⟨{ c with elems := listSwap c.elems i j }, ?_, rfl, ?_, ?_,
        hc.nodupId, hc.nodupIdx⟩
      · unfold swapElement
        rw [if_neg hne1, if_neg hne2, if_neg hfalse, if_neg hij, h1, h2]
      · intro id
        rcases hw : alookup c.idMap id with _ | w
        · rfl
        · simp only [Option.map_some', Option.some.injEq]
          show w = transp i j w
          have hwi : w ≠ i := by
            intro h
            rw [h] at hw
            rw [hc.fwd hw] at h1
            exact Option.noConfusion h1
          have hwj : w ≠ j := by
            intro h
            rw [h] at hw
            rw [hc.fwd hw] at h2
            exact Option.noConfusion h2
          rw [transp_other hwi hwj]
      · intro k
        show alookup c.idxMap k = alookup c.idxMap (transp i j k)
        by_cases hki : k = i
        · subst hki; rw [transp_left, h1, h2]
        · by_cases hkj : k = j
          · subst hkj; rw [transp_right, h1, h2]
          · rw [transp_other hki hkj]
    · -- only slot j is dynamic
      have hm2 : alookup c.idMap s2 = some j := hc.bwd h2
      refine ⟨{ elems := listSwap c.elems i j,
                idMap := aset c.idMap s2 i,
                idxMap := aerase (aset c.idxMap i s2) j }, ?_, rfl, ?_, ?_,
        nodup_akeys_aset _ hc.nodupId,
        nodup_akeys_aerase _ (nodup_akeys_aset _ hc.nodupIdx)⟩
      · unfold swapElement
        rw [if_neg hne1, if_neg hne2, if_neg hfalse, if_neg hij, h1, h2]
        dsimp only
        rw [hm2]
        simp [Nat.add_sub_cancel]
      · intro id
        show alookup (aset c.idMap s2 i) id = (alookup c.idMap id).map (transp i j)
        by_cases hid : id = s2
        · subst hid
          rw [alookup_aset_self, hm2]
          simp [transp_right]
        · rw [alookup_aset_ne _ _ hid]
          rcases hw : alookup c.idMap id with _ | w
          · rfl
          · simp only [Option.map_some', Option.some.injEq]
            have hwi : w ≠ i := by
              intro h
              rw [h] at hw
              rw [hc.fwd hw] at h1
              exact Option.noConfusion h1
            have hwj : w ≠ j := by
              intro h
              rw [h] at hw
              have := hc.fwd hw
              rw [h2] at this
              injection this with h3
              exact hid h3.symm
            rw [transp_other hwi hwj]
      · intro k
        show alookup (aerase (aset c.idxMap i s2) j) k =
          alookup c.idxMap (transp i j k)
        by_cases hkj : k = j
        · subst hkj
          rw [alookup_aerase_self (nodup_akeys_aset _ hc.nodupIdx), transp_right, h1]
        · rw [alookup_aerase_ne _ hkj]
          by_cases hki : k = i
          · subst hki
            rw [alookup_aset_self, transp_left, h2]
          · rw [alookup_aset_ne _ _ hki, transp_other hki hkj]
    · -- only slot i is dynamic
      have hm1 : alookup c.idMap s1 = some i := hc.bwd h1
      refine ⟨{ elems := listSwap c.elems i j,
                idMap := aset c.idMap s1 j,
                idxMap := aerase (aset c.idxMap j s1) i }, ?_, rfl, ?_, ?_,
        nodup_akeys_aset _ hc.nodupId,
        nodup_akeys_aerase _ (nodup_akeys_aset _ hc.nodupIdx)⟩
      · unfold swapElement
        rw [if_neg hne1, if_neg hne2, if_neg hfalse, if_neg hij, h1, h2]
        dsimp only
        rw [hm1]
        simp [Nat.add_sub_cancel]
      · intro id
        show alookup (aset c.idMap s1 j) id = (alookup c.idMap id).map (transp i j)
        by_cases hid : id = s1
        · subst hid
          rw [alookup_aset_self, hm1]
          simp [transp_left]
        · rw [alookup_aset_ne _ _ hid]
          rcases hw : alookup c.idMap id with _ | w
          · rfl
          · simp only [Option.map_some', Option.some.injEq]
            have hwi : w ≠ i := by
              intro h
              rw [h] at hw
              have := hc.fwd hw
              rw [h1] at this
              injection this with h3
              exact hid h3.symm
            have hwj : w ≠ j := by
              intro h
              rw [h] at hw
              rw [hc.fwd hw] at h2
              exact Option.noConfusion h2
            rw [transp_other hwi hwj]
      · intro k
        show alookup (aerase (aset c.idxMap j s1) i) k =
          alookup c.idxMap (transp i j k)
        by_cases hki : k = i
        · subst hki
          rw [alookup_aerase_self (nodup_akeys_aset _ hc.nodupIdx), transp_left, h2]
        · rw [alookup_aerase_ne _ hki]
          by_cases hkj : k = j
          · subst hkj
            rw [alookup_aset_self, transp_right, h1]
          · rw [alookup_aset_ne _ _ hkj, transp_other hki hkj]
    · -- both slots are dynamic
      have hm1 : alookup c.idMap s1 = some i := hc.bwd h1
      have hm2 : alookup c.idMap s2 = some j := hc.bwd h2
      refine ⟨{ elems := listSwap c.elems i j,
                idMap := aset (aset c.idMap s2 i) s1 j,
                idxMap := aset (aset c.idxMap i s2) j s1 }, ?_, rfl, ?_, ?_,
        nodup_akeys_aset _ (nodup_akeys_aset _ hc.nodupId),
        nodup_akeys_aset _ (nodup_akeys_aset _ hc.nodupIdx)⟩
      · unfold swapElement
        rw [if_neg hne1, if_neg hne2, if_neg hfalse, if_neg hij, h1, h2]
      · intro id
        show alookup (aset (aset c.idMap s2 i) s1 j) id =
          (alookup c.idMap id).map (transp i j)
        by_cases hid1 : id = s1
        · subst hid1
          rw [alookup_aset_self, hm1]
          simp [transp_left]
        · rw [alookup_aset_ne _ _ hid1]
          by_cases hid2 : id = s2
          · subst hid2
            rw [alookup_aset_self, hm2]
            simp [transp_right]
          · rw [alookup_aset_ne _ _ hid2]
            rcases hw : alookup c.idMap id with _ | w
            · rfl
            · simp only [Option.map_some', Option.some.injEq]
              have hwi : w ≠ i := by
                intro h
                rw [h] at hw
                have := hc.fwd hw
                rw [h1] at this
                injection this with h3
                exact hid1 h3.symm
              have hwj : w ≠ j := by
                intro h
                rw [h] at hw
                have := hc.fwd hw
                rw [h2] at this
                injection this with h3
                exact hid2 h3.symm
              rw [transp_other hwi hwj]
      · intro k
        show alookup (aset (aset c.idxMap i s2) j s1) k =
          alookup c.idxMap (transp i j k)
        by_cases hkj : k = j
        · subst hkj
          rw [alookup_aset_self, transp_right, h1]
        · rw [alookup_aset_ne _ _ hkj]
          by_cases hki : k = i
          · subst hki
            rw [alookup_aset_self, transp_left, h2]
          · rw [alookup_aset_ne _ _ hki, transp_other hki hkj]

/-! ### The `MutableInterface` operations, per category -/

/-- `BasicInterface::addText` / `addSprite`: append a plain (non-dynamic)
widget.  Asserts that the interface is not locked.  A freshly created
widget is never interactive, so its ghost flag is forced to `false`. -/
def addPlain (lockState : Bool) (w : Widget) (c : Cat) : Option Cat :=
  if lockState then none
  else some { c with elems := c.elems ++ [{ w with interactive := false }] }

/-- `MutableInterface::addDynamicText` / `addDynamicSprite`
(MutableInterface.hpp:137-146, MutableInterface.cpp:6-24): no-op when the
identifier is already present, otherwise append the widget and register the
new last slot in the identifier map and the reverse index map. -/
def addDynamic (lockState : Bool) (id : String) (w : Widget) (c : Cat) :
    Option Cat :=
  match alookup c.idMap id with
  | some _ => some c
  | none =>
      if lockState then none
      else
        let elems := c.elems ++ [{ w with interactive := false }]
        some { elems := elems,
               idMap := aset c.idMap id (elems.length - 1),
               idxMap := aset c.idxMap (elems.length - 1) id }

/-- `MutableInterface::removeDynamicText` (MutableInterface.cpp:26-40):
no-op when absent, otherwise swap the slot with the last slot, erase the
reverse-map entry for the last slot and the identifier-map entry, and pop
the vector. -/
def mutRemoveDynamicText (lockState : Bool) (id : String) (c : Cat) :
    Option Cat :=
  if lockState then none
  else
    match alookup c.idMap id with
    | none => some c
    | some idx =>
        match swapElement lockState idx (c.elems.length - 1) c with
        | none => none
        | some c1 =>
            some { elems := c1.elems.dropLast,
                   idMap := aerase c1.idMap id,
                   idxMap := aerase c1.idxMap (c.elems.length - 1) }

/-- `MutableInterface::removeDynamicSprite` (MutableInterface.cpp:42-56):
identical to the text version except that the source passes the two
indexes to `swapElement` in the opposite order. -/
def mutRemoveDynamicSprite (lockState : Bool) (id : String) (c : Cat) :
    Option Cat :=
  if lockState then none
  else
    match alookup c.idMap id with
    | none => some c
    | some idx =>
        match swapElement lockState (c.elems.length - 1) idx c with
        | none => none
        | some c1 =>
            some { elems := c1.elems.dropLast,
                   idMap := aerase c1.idMap id,
                   idxMap := aerase c1.idxMap (c.elems.length - 1) }

/-- `MutableInterface::getDynamicText` / `getDynamicSprite`
(MutableInterface.cpp:58-76): identifier lookup, then the record at the
mapped slot (the source returns its address without a bounds check; an
out-of-range slot would be undefined behaviour and yields `none` here). -/
def getDynamic (c : Cat) (id : String) : Option Widget :=
  match alookup c.idMap id with
  | none => none
  | some idx => c.elems[idx]?

theorem listSwap_comm {α : Type} (l : List α) (i j : Nat) :
    listSwap l i j = listSwap l j i := by
  by_cases hij : i = j
  · rw [hij]
  · unfold listSwap
    rcases hi : l[i]? with _ | a <;> rcases hj : l[j]? with _ | b <;> simp
    exact List.set_comm b a l hij

theorem transp_comm (i j k : Nat) : transp i j k = transp j i k := by
  unfold transp
  split_ifs <;> omega

theorem swapRel_symm {c c' : Cat} {i j : Nat} (h : SwapRel c c' i j) :
    SwapRel c c' j i := by
  obtain ⟨he, hm, hx, hn1, hn2⟩ := h
  refine ⟨by rw [he, listSwap_comm], ?_, ?_, hn1, hn2⟩
  · intro id
    rw [hm id]
    rcases alookup c.idMap id with _ | w
    · rfl
    · simp [transp_comm]
  · intro k
    rw [hx k, transp_comm]

/-- What a successful mutable remove guarantees on a consistent category:
the identifier is gone, the vector shrank by one, consistency is
preserved, every other identifier still maps to the slot holding its old
record (slots are renamed along the transposition of the removed slot with
the old last slot), and storage and reverse map are characterized slotwise
by that transposition. -/
structure RemovePost (c c' : Cat) (id : String) (idx : Nat) : Prop where
  inv : CatInv c'
  len : c'.elems.length = c.elems.length - 1
  gone : alookup c'.idMap id = none
  keep : ∀ {id' v}, id' ≠ id → alookup c.idMap id' = some v →
    alookup c'.idMap id' = some (transp idx (c.elems.length - 1) v) ∧
    c'.elems[transp idx (c.elems.length - 1) v]? = c.elems[v]?
  elemsAt : ∀ k, k < c.elems.length - 1 →
    c'.elems[k]? = c.elems[transp idx (c.elems.length - 1) k]?
  idxAt : ∀ k, k ≠ c.elems.length - 1 →
    alookup c'.idxMap k = alookup c.idxMap (transp idx (c.elems.length - 1) k)
  idxLast : alookup c'.idxMap (c.elems.length - 1) = none

theorem remove_post_spec {c c1 : Cat} (hc : CatInv c) {id : String}
    {idx : Nat} (hl : alookup c.idMap id = some idx)
    (hrel : SwapRel c c1 idx (c.elems.length - 1)) :
    RemovePost c
      { elems := c1.elems.dropLast,
        idMap := aerase c1.idMap id,
        idxMap := aerase c1.idxMap (c.elems.length - 1) } id idx := by
  have hidx : idx < c.elems.length := hc.range hl
  have hlast : c.elems.length - 1 < c.elems.length := by omega
  have hc1 : CatInv c1 := CatInv_of_swapRel hc hidx hlast hrel
  obtain ⟨he, hm, hx, hn1, hn2⟩ := hrel
  have hlen1 : c1.elems.length = c.elems.length := by rw [he]; simp
  have hid1 : alookup c1.idMap id = some (c.elems.length - 1) := by
    rw [hm id, hl]
    simp [transp_left]
  -- any other identifier maps, in c1, to a slot other than the last
  have hother : ∀ {id' v}, id' ≠ id → alookup c1.idMap id' = some v →
      v ≠ c.elems.length - 1 := by
    intro id' v hne hv hvlast
    subst hvlast
    have h1 := hc1.fwd hv
    have h2 := hc1.fwd hid1
    rw [h1] at h2
    injection h2 with h3
    exact hne h3
  have hdrop : ∀ k, k < c.elems.length - 1 →
      (c1.elems.dropLast)[k]? = c1.elems[k]? := by
    intro k hk
    rw [List.getElem?_dropLast]
    rw [hlen1]
    simp [hk]
  have hcinv : CatInv
      { elems := c1.elems.dropLast
        idMap := aerase c1.idMap id
        idxMap := aerase c1.idxMap (c.elems.length - 1) } := by
    refine ⟨nodup_akeys_aerase _ hc1.nodupId, nodup_akeys_aerase _ hc1.nodupIdx,
      ?_, ?_, ?_⟩
    · intro id' v hv
      have hne : id' ≠ id := by
        intro h
        rw [h, alookup_aerase_self hc1.nodupId] at hv
        exact Option.noConfusion hv
      rw [alookup_aerase_ne _ hne] at hv
      have := hc1.range hv
      have hvlast := hother hne hv
      simp only [List.length_dropLast, hlen1]
      omega
    · intro id' v hv
      have hne : id' ≠ id := by
        intro h
        rw [h, alookup_aerase_self hc1.nodupId] at hv
        exact Option.noConfusion hv
      rw [alookup_aerase_ne _ hne] at hv
      have hvlast := hother hne hv
      rw [alookup_aerase_ne _ hvlast]
      exact hc1.fwd hv
    · intro k id' hv
      have hk : k ≠ c.elems.length - 1 := by
        intro h
        rw [h, alookup_aerase_self hc1.nodupIdx] at hv
        exact Option.noConfusion hv
      rw [alookup_aerase_ne _ hk] at hv
      have hb := hc1.bwd hv
      have hne : id' ≠ id := by
        intro h
        rw [h, hid1] at hb
        injection hb with h3
        exact hk h3.symm
      rw [alookup_aerase_ne _ hne]
      exact hb
  refine ⟨hcinv, by simp [hlen1], by
    rw [alookup_aerase_self hc1.nodupId], ?_,
    ?_,
    ?_,
    alookup_aerase_self hc1.nodupIdx⟩
  case refine_2 =>
    intro k hk
    rw [hdrop _ hk, he, listSwap_getElem? hidx hlast]
  case refine_3 =>
    intro k hk
    show alookup (aerase c1.idxMap (c.elems.length - 1)) k =
      alookup c.idxMap (transp idx (c.elems.length - 1) k)
    rw [alookup_aerase_ne _ hk, hx k]
  intro id' v hne hv
  have hv1 : alookup c1.idMap id' = some (transp idx (c.elems.length - 1) v) := by
    rw [hm id', hv]
    rfl
  have hvne : v ≠ idx := by
    intro h
    rw [h] at hv
    have h1 := hc.fwd hv
    have h2 := hc.fwd hl
    rw [h1] at h2
    injection h2 with h3
    exact hne h3
  have htlt : transp idx (c.elems.length - 1) v < c.elems.length - 1 := by
    have hvlt : v < c.elems.length := hc.range hv
    have := hother hne hv1
    have hxlt : transp idx (c.elems.length - 1) v < c.elems.length :=
      transp_lt hidx hlast hvlt
    omega
  refine ⟨by rw [alookup_aerase_ne _ hne]; exact hv1, ?_⟩
  rw [hdrop _ htlt, he,
    listSwap_getElem? hidx hlast, transp_transp]


theorem alookup_isSome_of_mem_akeys {α β : Type} [DecidableEq α]
    {m : List (α × β)} {k : α} (h : k ∈ akeys m) :
    (alookup m k).isSome := by
  induction m with
  | nil => simp [akeys] at h
  | cons hd tl ih =>
      obtain ⟨k₀, v₀⟩ := hd
      by_cases hk : k = k₀
      · simp [alookup, hk]
      · simp only [akeys, List.map_cons, List.mem_cons] at h
        rcases h with h | h
        · exact absurd h hk
        · simp only [alookup, if_neg hk]
          exact ih h

theorem not_mem_akeys_of_alookup_none {α β : Type} [DecidableEq α]
    {m : List (α × β)} {k : α} (h : alookup m k = none) : k ∉ akeys m := by
  intro hmem
  have := alookup_isSome_of_mem_akeys hmem
  rw [h] at this
  exact Bool.noConfusion this

/-- A successful `addDynamicText`/`addDynamicSprite` on a fresh identifier:
the widget is appended (non-interactive), registered at the new last slot,
and all other identifiers are untouched. -/
theorem addDynamic_absent_spec {c : Cat} (hc : CatInv c) {id : String}
    (w : Widget) (hl : alookup c.idMap id = none) :
    ∃ c', addDynamic false id w c = some c' ∧ CatInv c' ∧
      c'.elems = c.elems ++ [{ w with interactive := false }] ∧
      alookup c'.idMap id = some c.elems.length ∧
      (∀ id', id' ≠ id → alookup c'.idMap id' = alookup c.idMap id') ∧
      (∀ k, k ≠ c.elems.length → alookup c'.idxMap k = alookup c.idxMap k) ∧
      alookup c'.idxMap c.elems.length = some id := by
  have hlen : (c.elems ++ [{ w with interactive := false }]).length - 1 =
      c.elems.length := by simp
  have hnotidx : alookup c.idxMap c.elems.length = none := by
    rcases hq : alookup c.idxMap c.elems.length with _ | id₀
    · rfl
    · have := hc.range (hc.bwd hq)
      omega
  refine ⟨{ elems := c.elems ++ [{ w with interactive := false }],
            idMap := aset c.idMap id c.elems.length,
            idxMap := aset c.idxMap c.elems.length id }, ?_, ?_, rfl, ?_, ?_, ?_, ?_⟩
  · unfold addDynamic
    rw [hl, if_neg Bool.false_ne_true]
    simp
  · refine ⟨nodup_akeys_aset _ hc.nodupId, nodup_akeys_aset _ hc.nodupIdx,
      ?_, ?_, ?_⟩
    · intro id' v hv
      simp only [List.length_append, List.length_cons, List.length_nil]
      by_cases hid : id' = id
      · subst hid
        rw [alookup_aset_self] at hv
        injection hv with h3
        omega
      · rw [alookup_aset_ne _ _ hid] at hv
        have := hc.range hv
        omega
    · intro id' v hv
      by_cases hid : id' = id
      · subst hid
        rw [alookup_aset_self] at hv
        injection hv with h3
        subst h3
        rw [alookup_aset_self]
      · rw [alookup_aset_ne _ _ hid] at hv
        have hvlt := hc.range hv
        rw [alookup_aset_ne _ _ (by omega)]
        exact hc.fwd hv
    · intro k id' hv
      by_cases hk : k = c.elems.length
      · subst hk
        rw [alookup_aset_self] at hv
        injection hv with h3
        subst h3
        rw [alookup_aset_self]
      · rw [alookup_aset_ne _ _ hk] at hv
        have hb := hc.bwd hv
        have hne : id' ≠ id := by
          intro h
          rw [h, hl] at hb
          exact Option.noConfusion hb
        rw [alookup_aset_ne _ _ hne]
        exact hb
  · exact alookup_aset_self c.idMap id c.elems.length
  · intro id' hne
    exact alookup_aset_ne _ _ hne
  · intro k hk
    exact alookup_aset_ne _ _ hk
  · exact alookup_aset_self c.idxMap c.elems.length id

theorem addDynamic_present {c : Cat} {id : String} {v : Nat} (w : Widget)
    (lockState : Bool) (hl : alookup c.idMap id = some v) :
    addDynamic lockState id w c = some c := by
  unfold addDynamic
  rw [hl]

/-- A successful mutable `removeDynamicText` on a present identifier. -/
theorem mutRemoveDynamicText_spec {c : Cat} (hc : CatInv c) {id : String}
    {idx : Nat} (hl : alookup c.idMap id = some idx) :
    ∃ c', mutRemoveDynamicText false id c = some c' ∧ RemovePost c c' id idx := by
  have hidx : idx < c.elems.length := hc.range hl
  have hlast : c.elems.length - 1 < c.elems.length := by omega
  obtain ⟨c1, heq, hrel⟩ := swapElement_spec hc hidx hlast
  refine ⟨_, ?_, remove_post_spec hc hl hrel⟩
  unfold mutRemoveDynamicText
  rw [if_neg Bool.false_ne_true, hl]
  dsimp only
  rw [heq]

/-- A successful mutable `removeDynamicSprite` on a present identifier
(the source passes the swap indexes in the opposite order, which makes no
observable difference). -/
theorem mutRemoveDynamicSprite_spec {c : Cat} (hc : CatInv c) {id : String}
    {idx : Nat} (hl : alookup c.idMap id = some idx) :
    ∃ c', mutRemoveDynamicSprite false id c = some c' ∧ RemovePost c c' id idx := by
  have hidx : idx < c.elems.length := hc.range hl
  have hlast : c.elems.length - 1 < c.elems.length := by omega
  obtain ⟨c1, heq, hrel⟩ := swapElement_spec hc hlast hidx
  refine ⟨_, ?_, remove_post_spec hc hl (swapRel_symm hrel)⟩
  unfold mutRemoveDynamicSprite
  rw [if_neg Bool.false_ne_true, hl]
  dsimp only
  rw [heq]

theorem mutRemoveDynamicText_absent {c : Cat} {id : String}
    (hl : alookup c.idMap id = none) :
    mutRemoveDynamicText false id c = some c := by
  unfold mutRemoveDynamicText
  rw [if_neg Bool.false_ne_true, hl]

theorem mutRemoveDynamicSprite_absent {c : Cat} {id : String}
    (hl : alookup c.idMap id = none) :
    mutRemoveDynamicSprite false id c = some c := by
  unfold mutRemoveDynamicSprite
  rw [if_neg Bool.false_ne_true, hl]


/-! ### The `InteractiveInterface` state and operations -/

/-- `InteractiveInterface::exitWritingCharacter` default companion: the
string `setWritingText("")` writes into an empty exited text
(`emptinessWritingCharacters`, InteractiveInterface.hpp:289). -/
def emptinessWritingCharacters : String := "0"

/-- `InteractiveInterface::writingCursorIdentifier`
(InteractiveInterface.hpp:305). -/
def writingCursorIdentifier : String := "__wc"

/-- The interactive registry state: the two inherited categories, the
`BasicInterface` lock flag, the two interactive counters, the button map
(`m_allButtons`: identifier to callback and reference count) and the
writing state.  A `ButtonFunction` (`std::function`, possibly null) is an
opaque callback token: `none` is the null function. -/
structure IState where
  texts : Cat
  sprites : Cat
  lockState : Bool
  nbOfButtonTexts : Nat
  nbOfButtonSprites : Nat
  allButtons : List (String × (Option Nat × Int))
  writingTextIdentifier : String
  writingFunction : Option Nat
deriving DecidableEq, Repr

/-- The variant member of `InteractiveInterface::Item`: empty
(`std::monostate`) or a raw `TextWrapper*` / `SpriteWrapper*`, represented
by the slot the pointer addressed when it was captured. -/
inductive ItemPtr where
  | mono : ItemPtr
  | text : Nat → ItemPtr
  | sprite : Nat → ItemPtr
deriving DecidableEq, Repr

/-- `InteractiveInterface::Item` (InteractiveInterface.hpp:66-89): the
process-wide hovered element.  The owning registry pointer `igui` is
modelled by a registry identity, `none` standing for `nullptr`. -/
structure Item where
  igui : Option Nat
  identifier : String
  ptr : ItemPtr
deriving DecidableEq, Repr

/-- The default-constructed `Item{}`. -/
def Item.empty : Item :=
  { igui := none, identifier := "", ptr := ItemPtr.mono }

/-- `InteractiveInterface::setWritingText("")`
(InteractiveInterface.cpp:110-124, the disable branch as reached from
`removeDynamicText`): if the previous writing text exists and its bounds
have zero width, restore the placeholder content; then hide the
writing-cursor sprite and clear the writing state.  Dereferencing the
cursor yields undefined behaviour when the `__wc` sprite is absent
(`none`).  `setContent` recomputes bounds inside the excluded rendering
library; the model updates the content string and keeps the stored
bounds. -/
def setWritingTextEmpty (s : IState) : Option IState :=
  let textsFixed :=
    match alookup s.texts.idMap s.writingTextIdentifier with
    | none => s.texts.elems
    | some idx =>
        match s.texts.elems[idx]? with
        | none => s.texts.elems
        | some w =>
            if w.bounds.sx = 0 then
              s.texts.elems.set idx { w with content := emptinessWritingCharacters }
            else s.texts.elems
  match alookup s.sprites.idMap writingCursorIdentifier with
  | none => none
  | some cidx =>
      match s.sprites.elems[cidx]? with
      | none => none
      | some cw =>
          some { s with
                   texts := { s.texts with elems := textsFixed }
                   sprites := { s.sprites with
                                elems := s.sprites.elems.set cidx { cw with hide := true } }
                   writingTextIdentifier := ""
                   writingFunction := none }

/-- The button bookkeeping at the end of the interactive removes
(InteractiveInterface.cpp:57-60 and 82-85): find the entry, decrement its
reference count, erase it when the count drops to zero or below.  A
missing entry makes the source decrement through the end iterator, which
is undefined behaviour (`none`). -/
def decrementButton (id : String)
    (btns : List (String × (Option Nat × Int))) :
    Option (List (String × (Option Nat × Int))) :=
  match alookup btns id with
  | none => none
  | some (f, cnt) =>
      if cnt - 1 ≤ 0 then some (aerase btns id)
      else some (aset btns id (f, cnt - 1))

/-- `InteractiveInterface::removeDynamicText`
(InteractiveInterface.cpp:35-61).  `self` is this registry's identity,
`hov` the process-wide `s_hoveredItem`; the result pairs the new state
with the new hovered item.  The slot `index` is read from the identifier
map before the base-class removal runs; only afterwards, when the slot was
interactive, the slot is swapped with slot `nbOfButtonTexts - 1` (the
counter being decremented on the way) and the button entry released. -/
def iRemoveDynamicText (self : Nat) (hov : Item) (id : String) (s : IState) :
    Option (IState × Item) :=
  match alookup s.texts.idMap id with
  | none => some (s, hov)
  | some index =>
      let hov' := if hov.igui = some self ∧ hov.identifier = id then Item.empty else hov
      match (if s.writingTextIdentifier = id then setWritingTextEmpty s else some s) with
      | none => none
      | some s1 =>
          match mutRemoveDynamicText s1.lockState id s1.texts with
          | none => none
          | some ctexts =>
              let s2 := { s1 with texts := ctexts }
              if index ≥ s2.nbOfButtonTexts then some (s2, hov')
              else
                match swapElement s2.lockState index (s2.nbOfButtonTexts - 1) s2.texts with
                | none => none
                | some ctexts2 =>
                    match decrementButton id s2.allButtons with
                    | none => none
                    | some btns =>
                        some ({ s2 with
                                  texts := ctexts2
                                  nbOfButtonTexts := s2.nbOfButtonTexts - 1
                                  allButtons := btns }, hov')

/-- `InteractiveInterface::removeDynamicSprite`
(InteractiveInterface.cpp:63-86): like the text version, without the
writing-text handling. -/
def iRemoveDynamicSprite (self : Nat) (hov : Item) (id : String) (s : IState) :
    Option (IState × Item) :=
  match alookup s.sprites.idMap id with
  | none => some (s, hov)
  | some index =>
      let hov' := if hov.igui = some self ∧ hov.identifier = id then Item.empty else hov
      match mutRemoveDynamicSprite s.lockState id s.sprites with
      | none => none
      | some csprites =>
          let s2 := { s with sprites := csprites }
          if index ≥ s2.nbOfButtonSprites then some (s2, hov')
          else
            match swapElement s2.lockState index (s2.nbOfButtonSprites - 1) s2.sprites with
            | none => none
            | some csprites2 =>
                match decrementButton id s2.allButtons with
                | none => none
                | some btns =>
                    some ({ s2 with
                              sprites := csprites2
                              nbOfButtonSprites := s2.nbOfButtonSprites - 1
                              allButtons := btns }, hov')

/-- Set the ghost `interactive` flag of the slot a promotion just filled.
Instrumentation only: the source stores no such flag, and no translated
operation reads it. -/
def markInteractive (c : Cat) (slot : Nat) : Cat :=
  match c.elems[slot]? with
  | none => c
  | some w => { c with elems := c.elems.set slot { w with interactive := true } }

/-- `InteractiveInterface::addInteractive` (InteractiveInterface.cpp:88-108):
look the identifier up in both categories, swap each not-yet-interactive
match into the interactive prefix (incrementing the corresponding
counter), then unconditionally `insert_or_assign` the button entry whose
count is the number of categories in which the identifier exists. -/
def addInteractive (id : String) (fn : Option Nat) (s : IState) :
    Option IState :=
  let textIdx := alookup s.texts.idMap id
  let spriteIdx := alookup s.sprites.idMap id
  let step1 :=
    match textIdx with
    | some ti =>
        if ti ≥ s.nbOfButtonTexts then
          match swapElement s.lockState ti s.nbOfButtonTexts s.texts with
          | none => none
          | some c1 =>
              some { s with
                       texts := markInteractive c1 s.nbOfButtonTexts
                       nbOfButtonTexts := s.nbOfButtonTexts + 1 }
        else some s
    | none => some s
  match step1 with
  | none => none
  | some s1 =>
      let step2 :=
        match spriteIdx with
        | some si =>
            if si ≥ s1.nbOfButtonSprites then
              match swapElement s1.lockState si s1.nbOfButtonSprites s1.sprites with
              | none => none
              | some c2 =>
                  some { s1 with
                           sprites := markInteractive c2 s1.nbOfButtonSprites
                           nbOfButtonSprites := s1.nbOfButtonSprites + 1 }
            else some s1
        | none => some s1
      match step2 with
      | none => none
      | some s2 =>
          let cnt : Int :=
            (if spriteIdx.isSome then 1 else 0) + (if textIdx.isSome then 1 else 0)
          some { s2 with allButtons := aset s2.allButtons id (fn, cnt) }

/-- The fast-path hit test of `eventUpdateHovered`
(InteractiveInterface.cpp:152-160): with the interface locked the stored
pointer is dereferenced directly; otherwise the element is re-looked-up by
identifier.  `none` models the undefined behaviour of dereferencing a
stale pointer past the end of the vector (locked) or the null result of
the lookup (unlocked). -/
def fastCheck (s : IState) (hov : Item) (pos : Vec2) : Option Bool :=
  match hov.ptr with
  | ItemPtr.mono => none
  | ItemPtr.text slot =>
      if s.lockState then
        match s.texts.elems[slot]? with
        | none => none
        | some w => some (w.bounds.containsPos pos)
      else
        match getDynamic s.texts hov.identifier with
        | none => none
        | some w => some (w.bounds.containsPos pos)
  | ItemPtr.sprite slot =>
      if s.lockState then
        match s.sprites.elems[slot]? with
        | none => none
        | some w => some (w.bounds.containsPos pos)
      else
        match getDynamic s.sprites hov.identifier with
        | none => none
        | some w => some (w.bounds.containsPos pos)

/-- One scan loop of `eventUpdateHovered` over the slots
`[i, i + rem)` of one category (InteractiveInterface.cpp:164-182): skip
hidden elements, stop at the first whose bounds contain the cursor,
reporting its identifier (via the reverse index map, whose `.at` call
would throw on a missing slot: `none`) and slot. -/
def scanLoop (c : Cat) (pos : Vec2) : Nat → Nat → Option (Option (String × Nat))
  | _, 0 => some none
  | i, Nat.succ rem =>
      match c.elems[i]? with
      | none => none
      | some w =>
          if !w.hide && w.bounds.containsPos pos then
            match alookup c.idxMap i with
            | none => none
            | some ident => some (some (ident, i))
          else scanLoop c pos (i + 1) rem

/-- The full-scan portion of `eventUpdateHovered`
(InteractiveInterface.cpp:162-184): clear the hovered item, scan the
interactive text slots, then the interactive sprite slots. -/
def fullScan (self : Nat) (s : IState) (pos : Vec2) : Option Item :=
  match scanLoop s.texts pos 0 s.nbOfButtonTexts with
  | none => none
  | some (some (ident, i)) =>
      some { igui := some self, identifier := ident, ptr := ItemPtr.text i }
  | some none =>
      match scanLoop s.sprites pos 0 s.nbOfButtonSprites with
      | none => none
      | some (some (ident, i)) =>
          some { igui := some self, identifier := ident, ptr := ItemPtr.sprite i }
      | some none => some Item.empty

/-- `InteractiveInterface::eventUpdateHovered(InteractiveInterface*, pos)`
(InteractiveInterface.cpp:146-185).  The returned item is also what the
source stores back into the static `s_hoveredItem`. -/
def eventUpdateHovered (self : Nat) (s : IState) (hov : Item) (pos : Vec2) :
    Option Item :=
  if hov.igui = some self ∧ hov.ptr ≠ ItemPtr.mono then
    match fastCheck s hov pos with
    | none => none
    | some true => some hov
    | some false => fullScan self s pos
  else fullScan self s pos

/-- The active GUI as handed to the static event functions: a
`BasicInterface*` whose dynamic type is not `InteractiveInterface` (the
`dynamic_cast` yields null), or an interactive registry identity.  A null
`activeGUI` asserts in the source and is not represented. -/
inductive GuiRef where
  | basic : GuiRef
  | interactive : Nat → GuiRef
deriving DecidableEq, Repr

/-- The heart of `InteractiveInterface::eventPressed`
(InteractiveInterface.cpp:199-212) on a given interactive registry: no
invocation unless the hovered item's owner is this very registry; then an
`m_allButtons` lookup by the hovered identifier, and the callback runs
only when present and non-null.  The result is the invoked callback token
(`none`: nothing invoked).  The body reads state and mutates none. -/
def eventPressedCore (rid : Nat) (s : IState) (hov : Item) : Option Nat :=
  if hov.igui ≠ some rid then none
  else
    match alookup s.allButtons hov.identifier with
    | none => none
    | some (fn, _) => fn

/-- `InteractiveInterface::eventPressed` (InteractiveInterface.cpp:195-212)
including the `dynamic_cast` guard. -/
def eventPressed (arg : GuiRef) (stateOf : Nat → Option IState) (hov : Item) :
    Option Nat :=
  match arg with
  | GuiRef.basic => none
  | GuiRef.interactive rid =>
      match stateOf rid with
      | none => none
      | some s => eventPressedCore rid s hov

/-- The widget the constructor registers for the writing cursor: a sprite
on the 1-by-1 `__plainGrey` texture, scaled 5 by 25 at the origin and then
hidden (InteractiveInterface.cpp:21-22).  The concrete bounds stand for
the geometry the excluded rendering library would report. -/
def cursorSprite : Widget :=
  { interactive := false, hide := true,
    bounds := { px := 0, py := 0, sx := 5, sy := 25 }, content := "" }

/-- A freshly constructed `InteractiveInterface`
(InteractiveInterface.cpp:8-23): unlocked and empty except for the hidden
writing-cursor sprite registered as the dynamic sprite `"__wc"`. -/
def initIState : IState :=
  { texts := Cat.empty,
    sprites := { elems := [cursorSprite],
                 idMap := [(writingCursorIdentifier, 0)],
                 idxMap := [(0, writingCursorIdentifier)] },
    lockState := false, nbOfButtonTexts := 0, nbOfButtonSprites := 0,
    allButtons := [], writingTextIdentifier := "", writingFunction := none }


/-! ### The process-wide picture: registries, the static hovered item -/

/-- The process-wide mutable picture: the live `InteractiveInterface`
instances (keyed by identity), the static `s_hoveredItem`, and a counter
supplying fresh identities. -/
structure World where
  regs : List (Nat × IState)
  hovered : Item
  nextId : Nat
deriving DecidableEq, Repr

/-- One application-level operation on the world. -/
inductive WOp where
  | create : WOp
  | destroy : Nat → WOp
  | addText : Nat → Widget → WOp
  | addSprite : Nat → Widget → WOp
  | addDynText : Nat → String → Widget → WOp
  | addDynSprite : Nat → String → Widget → WOp
  | removeText : Nat → String → WOp
  | removeSprite : Nat → String → WOp
  | interact : Nat → String → Option Nat → WOp
  | lock : Nat → WOp
  | moveHover : Nat → Vec2 → WOp
deriving DecidableEq, Repr

/-- Rebuild the world after an operation on one registry.  Operating on a
registry that is not live means calling through a dangling pointer:
undefined behaviour, `none`. -/
def updateReg (w : World) (rid : Nat) (f : IState → Option IState) :
    Option World :=
  match alookup w.regs rid with
  | none => none
  | some s =>
      match f s with
      | none => none
      | some s' => some { w with regs := aset w.regs rid s' }

/-- `InteractiveInterface::~InteractiveInterface`
(InteractiveInterface.cpp:25-33): drop the registry and reset the static
hovered item when it points at this registry. -/
def destroyReg (w : World) (rid : Nat) : Option World :=
  match alookup w.regs rid with
  | none => none
  | some _ =>
      some { w with
               regs := aerase w.regs rid
               hovered := if w.hovered.igui = some rid then Item.empty else w.hovered }

/-- Execute one world operation. -/
def execOp (w : World) : WOp → Option World
  | WOp.create =>
      some { regs := aset w.regs w.nextId initIState,
             hovered := w.hovered, nextId := w.nextId + 1 }
  | WOp.destroy rid => destroyReg w rid
  | WOp.addText rid wid =>
      updateReg w rid fun s =>
        (addPlain s.lockState wid s.texts).map fun c => { s with texts := c }
  | WOp.addSprite rid wid =>
      updateReg w rid fun s =>
        (addPlain s.lockState wid s.sprites).map fun c => { s with sprites := c }
  | WOp.addDynText rid id wid =>
      updateReg w rid fun s =>
        (addDynamic s.lockState id wid s.texts).map fun c => { s with texts := c }
  | WOp.addDynSprite rid id wid =>
      updateReg w rid fun s =>
        (addDynamic s.lockState id wid s.sprites).map fun c => { s with sprites := c }
  | WOp.removeText rid id =>
      match alookup w.regs rid with
      | none => none
      | some s =>
          match iRemoveDynamicText rid w.hovered id s with
          | none => none
          | some (s', hov') =>
              some { w with regs := aset w.regs rid s', hovered := hov' }
  | WOp.removeSprite rid id =>
      match alookup w.regs rid with
      | none => none
      | some s =>
          match iRemoveDynamicSprite rid w.hovered id s with
          | none => none
          | some (s', hov') =>
              some { w with regs := aset w.regs rid s', hovered := hov' }
  | WOp.interact rid id fn => updateReg w rid (addInteractive id fn)
  | WOp.lock rid =>
      updateReg w rid fun s => some { s with lockState := true }
  | WOp.moveHover rid pos =>
      match alookup w.regs rid with
      | none => none
      | some s =>
          match eventUpdateHovered rid s w.hovered pos with
          | none => none
          | some item => some { w with hovered := item }

/-- The world before any registry is constructed. -/
def worldStart : World :=
  { regs := [], hovered := Item.empty, nextId := 0 }

/-- Run a list of operations. -/
def execList : List WOp → World → Option World
  | [], w => some w
  | op :: ops, w =>
      match execOp w op with
      | none => none
      | some w' => execList ops w'

/-- A world the application can reach by a finite operation sequence. -/
def ReachableWorld (w : World) : Prop :=
  ∃ ops, execList ops worldStart = some w


/-! ### The registry invariants -/

/-- The interactive-partition facts for one category with boundary `nb`
(spec sections 3 and 4.2): the boundary lies within the vector, every slot
below it is registered in the reverse index map (interactive widgets are
dynamic), and a slot holds a promoted widget (ghost flag) exactly when it
lies below the boundary. -/
structure PartInv (c : Cat) (nb : Nat) : Prop where
  le : nb ≤ c.elems.length
  dyn : ∀ i, i < nb → (alookup c.idxMap i).isSome
  flag : ∀ {i w}, c.elems[i]? = some w → (w.interactive = true ↔ i < nb)

/-- The whole-registry invariant of an `InteractiveInterface`. -/
structure IInv (s : IState) : Prop where
  textsInv : CatInv s.texts
  spritesInv : CatInv s.sprites
  textsPart : PartInv s.texts s.nbOfButtonTexts
  spritesPart : PartInv s.sprites s.nbOfButtonSprites

/-- Executable check mirroring `PartInv`. -/
def partChk (c : Cat) (nb : Nat) : Bool :=
  decide (nb ≤ c.elems.length) &&
  (List.range nb).all (fun i => (alookup c.idxMap i).isSome) &&
  (List.range c.elems.length).all (fun i =>
    match c.elems[i]? with
    | none => true
    | some w => w.interactive == decide (i < nb))

/-- Executable check mirroring `IInv`. -/
def iChk (s : IState) : Bool :=
  catChk s.texts && catChk s.sprites &&
  partChk s.texts s.nbOfButtonTexts && partChk s.sprites s.nbOfButtonSprites

theorem partChk_sound {c : Cat} {nb : Nat} (h : partChk c nb = true) :
    PartInv c nb := by
  unfold partChk at h
  simp only [Bool.and_eq_true, decide_eq_true_eq, List.all_eq_true,
    List.mem_range] at h
  obtain ⟨⟨h1, h2⟩, h3⟩ := h
  refine ⟨h1, fun i hi => h2 i hi, ?_⟩
  intro i w hw
  have hi : i < c.elems.length := by
    by_contra hge
    rw [List.getElem?_eq_none (by omega)] at hw
    exact Option.noConfusion hw
  have := h3 i hi
  rw [hw] at this
  simp only [beq_iff_eq] at this
  constructor
  · intro ht
    rw [ht] at this
    exact of_decide_eq_true this.symm
  · intro hlt
    rw [this]
    simp [hlt]

theorem iChk_sound {s : IState} (h : iChk s = true) : IInv s := by
  unfold iChk at h
  simp only [Bool.and_eq_true] at h
  exact ⟨catChk_sound h.1.1.1, catChk_sound h.1.1.2,
    partChk_sound h.1.2, partChk_sound h.2⟩

/-- Consistency only constrains the vector through its length. -/
theorem CatInv_replace_elems {c : Cat} (hc : CatInv c) {e : List Widget}
    (hlen : e.length = c.elems.length) :
    CatInv { elems := e, idMap := c.idMap, idxMap := c.idxMap } :=
  ⟨hc.nodupId, hc.nodupIdx,
    fun hv => by simpa [hlen] using hc.range hv, fun hv => hc.fwd hv,
    fun hv => hc.bwd hv⟩

/-- The partition facts survive any elementwise replacement that keeps
each slot's ghost flag. -/
theorem PartInv_replace_elems {c : Cat} {nb : Nat} (hp : PartInv c nb)
    {e : List Widget} (hlen : e.length = c.elems.length)
    (hflag : ∀ {i : Nat} {w' : Widget}, e[i]? = some w' →
      ∃ w, c.elems[i]? = some w ∧ w'.interactive = w.interactive) :
    PartInv { elems := e, idMap := c.idMap, idxMap := c.idxMap } nb := by
  refine ⟨by simpa [hlen] using hp.le, fun i hi => hp.dyn i hi, ?_⟩
  intro i w' hw'
  obtain ⟨w, hw, hfl⟩ := hflag hw'
  rw [hfl]
  exact hp.flag hw

/-- Appending a fresh non-interactive widget preserves consistency. -/
theorem CatInv_append {c : Cat} (hc : CatInv c) (w : Widget) :
    CatInv { elems := c.elems ++ [w], idMap := c.idMap, idxMap := c.idxMap } :=
  ⟨hc.nodupId, hc.nodupIdx,
    fun hv => by
      have := hc.range hv
      simp only [List.length_append, List.length_cons, List.length_nil]
      omega,
    fun hv => hc.fwd hv, fun hv => hc.bwd hv⟩

/-- Appending a fresh non-interactive widget preserves the partition; the
reverse index map may gain an entry at the new slot only. -/
theorem PartInv_append {c c' : Cat} {nb : Nat} (hp : PartInv c nb)
    {w : Widget} (hw : w.interactive = false)
    (he : c'.elems = c.elems ++ [w])
    (hidx : ∀ i, i ≠ c.elems.length → alookup c'.idxMap i = alookup c.idxMap i) :
    PartInv c' nb := by
  have hle := hp.le
  refine ⟨by rw [he]; simp; omega, ?_, ?_⟩
  · intro i hi
    rw [hidx i (by omega)]
    exact hp.dyn i hi
  · intro i w' hw'
    rw [he] at hw'
    by_cases hil : i < c.elems.length
    · rw [List.getElem?_append_left hil] at hw'
      exact hp.flag hw'
    · by_cases hieq : i = c.elems.length
      · subst hieq
        rw [List.getElem?_concat_length] at hw'
        injection hw' with hw'
        subst hw'
        constructor
        · intro hfl
          rw [hw] at hfl
          exact Bool.noConfusion hfl
        · intro hlt
          omega
      · rw [List.getElem?_eq_none (by simp; omega)] at hw'
        exact Option.noConfusion hw'

/-- Removing a widget stored outside the interactive prefix preserves the
partition with an unchanged boundary. -/
theorem PartInv_remove_noninteractive {c c' : Cat} {nb : Nat} {id : String}
    {idx : Nat} (hp : PartInv c nb) (hpost : RemovePost c c' id idx)
    (hidx : idx < c.elems.length) (hge : idx ≥ nb) : PartInv c' nb := by
  have hlast : nb ≤ c.elems.length - 1 := by omega
  refine ⟨by rw [hpost.len]; omega, ?_, ?_⟩
  · intro i hi
    rw [hpost.idxAt i (by omega),
      transp_other (by omega) (by omega)]
    exact hp.dyn i hi
  · intro k w hw
    have hk : k < c.elems.length - 1 := by
      by_contra hgt
      rw [List.getElem?_eq_none (by rw [hpost.len]; omega)] at hw
      exact Option.noConfusion hw
    rw [hpost.elemsAt k hk] at hw
    by_cases hki : k = idx
    · subst hki
      rw [transp_left] at hw
      have := hp.flag hw
      constructor
      · intro hfl
        have := this.mp hfl
        omega
      · intro hlt
        omega
    · rw [transp_other hki (by omega)] at hw
      exact hp.flag hw

/-- Removing an interactive widget: the general swap-remove against the
last slot followed by the swap with slot `nb - 1` and the decrement of the
boundary restores the partition. -/
theorem PartInv_remove_interactive {c c' c2 : Cat} {nb : Nat} {id : String}
    {idx : Nat} (hp : PartInv c nb) (hpost : RemovePost c c' id idx)
    (hlt : idx < nb)
    (hrel : SwapRel c' c2 idx (nb - 1))
    (hidxr : idx < c'.elems.length) (hnbr : nb - 1 < c'.elems.length) :
    PartInv c2 (nb - 1) := by
  obtain ⟨he2, hm2, hx2, _, _⟩ := hrel
  have hlen' : c'.elems.length = c.elems.length - 1 := hpost.len
  have hnb : nb ≤ c.elems.length := hp.le
  have hnblt : nb - 1 < c.elems.length - 1 := by omega
  have hidxlt : idx < c.elems.length - 1 := by omega
  have hlen2 : c2.elems.length = c.elems.length - 1 := by
    rw [he2]
    simp [hlen']
  have helems2 : ∀ k, c2.elems[k]? = c'.elems[transp idx (nb - 1) k]? := by
    intro k
    rw [he2, listSwap_getElem? hidxr hnbr]
  refine ⟨by omega, ?_, ?_⟩
  · intro i hi
    rw [hx2 i]
    by_cases hii : i = idx
    · subst hii
      rw [transp_left, hpost.idxAt _ (by omega),
        transp_other (by omega) (by omega)]
      exact hp.dyn _ (by omega)
    · rw [transp_other hii (by omega), hpost.idxAt _ (by omega),
        transp_other hii (by omega)]
      exact hp.dyn i (by omega)
  · intro k w hw
    rw [helems2 k] at hw
    by_cases hk2 : k = nb - 1
    · subst hk2
      rw [transp_right, hpost.elemsAt _ hidxlt, transp_left] at hw
      have := hp.flag hw
      constructor
      · intro hfl
        have hl2 := this.mp hfl
        omega
      · intro hc2
        omega
    · by_cases hki : k = idx
      · subst hki
        rw [transp_left, hpost.elemsAt _ hnblt,
          transp_other (by omega) (by omega)] at hw
        have := hp.flag hw
        constructor
        · intro hfl
          have := this.mp hfl
          omega
        · intro hklt
          exact this.mpr (by omega)
      · rw [transp_other hki hk2] at hw
        have hklen : k < c.elems.length - 1 := by
          by_contra hge
          rw [List.getElem?_eq_none (by omega)] at hw
          exact Option.noConfusion hw
        rw [hpost.elemsAt _ hklen, transp_other hki (by omega)] at hw
        have := hp.flag hw
        constructor
        · intro hfl
          have := this.mp hfl
          omega
        · intro hklt
          exact this.mpr (by omega)


/-! ### Success inversions for the translated operations -/

theorem swapElement_inv {lock : Bool} {i j : Nat} {c c' : Cat}
    (hc : CatInv c) (h : swapElement lock i j c = some c') :
    lock = false ∧ i < c.elems.length ∧ j < c.elems.length ∧
    SwapRel c c' i j := by
  have hi : ¬ i ≥ c.elems.length := by
    intro hge
    unfold swapElement at h
    rw [if_pos hge] at h
    exact Option.noConfusion h
  have hj : ¬ j ≥ c.elems.length := by
    intro hge
    unfold swapElement at h
    rw [if_neg hi, if_pos hge] at h
    exact Option.noConfusion h
  have hlock : lock = false := by
    cases lock
    · rfl
    · unfold swapElement at h
      rw [if_neg hi, if_neg hj, if_pos rfl] at h
      exact Option.noConfusion h
  subst hlock
  obtain ⟨c'', heq, hrel⟩ := @swapElement_spec c hc i j (by omega) (by omega)
  rw [heq] at h
  injection h with h
  subst h
  exact ⟨rfl, by omega, by omega, hrel⟩

theorem mutRemoveDynamicText_inv {lock : Bool} {id : String} {c c' : Cat}
    (hc : CatInv c) (h : mutRemoveDynamicText lock id c = some c') :
    lock = false ∧
    ((alookup c.idMap id = none ∧ c' = c) ∨
     (∃ idx, alookup c.idMap id = some idx ∧ RemovePost c c' id idx)) := by
  have hlock : lock = false := by
    cases lock
    · rfl
    · unfold mutRemoveDynamicText at h
      rw [if_pos rfl] at h
      exact Option.noConfusion h
  subst hlock
  refine ⟨rfl, ?_⟩
  rcases hl : alookup c.idMap id with _ | idx
  · left
    refine ⟨rfl, ?_⟩
    rw [mutRemoveDynamicText_absent hl] at h
    injection h with h
    exact h.symm
  · right
    obtain ⟨c'', heq, hpost⟩ := mutRemoveDynamicText_spec hc hl
    rw [heq] at h
    injection h with h
    exact ⟨idx, rfl, h ▸ hpost⟩

theorem mutRemoveDynamicSprite_inv {lock : Bool} {id : String} {c c' : Cat}
    (hc : CatInv c) (h : mutRemoveDynamicSprite lock id c = some c') :
    lock = false ∧
    ((alookup c.idMap id = none ∧ c' = c) ∨
     (∃ idx, alookup c.idMap id = some idx ∧ RemovePost c c' id idx)) := by
  have hlock : lock = false := by
    cases lock
    · rfl
    · unfold mutRemoveDynamicSprite at h
      rw [if_pos rfl] at h
      exact Option.noConfusion h
  subst hlock
  refine ⟨rfl, ?_⟩
  rcases hl : alookup c.idMap id with _ | idx
  · left
    refine ⟨rfl, ?_⟩
    rw [mutRemoveDynamicSprite_absent hl] at h
    injection h with h
    exact h.symm
  · right
    obtain ⟨c'', heq, hpost⟩ := mutRemoveDynamicSprite_spec hc hl
    rw [heq] at h
    injection h with h
    exact ⟨idx, rfl, h ▸ hpost⟩

theorem addPlain_inv {lock : Bool} {w : Widget} {c c' : Cat}
    (h : addPlain lock w c = some c') :
    lock = false ∧
    c' = { c with elems := c.elems ++ [{ w with interactive := false }] } := by
  cases lock
  · unfold addPlain at h
    rw [if_neg Bool.false_ne_true] at h
    injection h with h
    exact ⟨rfl, h.symm⟩
  · unfold addPlain at h
    rw [if_pos rfl] at h
    exact Option.noConfusion h

theorem addDynamic_inv {lock : Bool} {id : String} {w : Widget} {c c' : Cat}
    (hc : CatInv c) (h : addDynamic lock id w c = some c') :
    ((alookup c.idMap id).isSome ∧ c' = c) ∨
    (alookup c.idMap id = none ∧ lock = false ∧ CatInv c' ∧
      c'.elems = c.elems ++ [{ w with interactive := false }] ∧
      alookup c'.idMap id = some c.elems.length ∧
      (∀ id', id' ≠ id → alookup c'.idMap id' = alookup c.idMap id') ∧
      (∀ k, k ≠ c.elems.length → alookup c'.idxMap k = alookup c.idxMap k) ∧
      alookup c'.idxMap c.elems.length = some id) := by
  rcases hl : alookup c.idMap id with _ | v
  · right
    have hlock : lock = false := by
      cases lock
      · rfl
      · unfold addDynamic at h
        rw [hl] at h
        dsimp only at h
        rw [if_pos rfl] at h
        exact Option.noConfusion h
    subst hlock
    obtain ⟨c'', heq, hrest⟩ := addDynamic_absent_spec hc w hl
    rw [heq] at h
    injection h with h
    subst h
    exact ⟨rfl, rfl, hrest⟩
  · left
    rw [addDynamic_present w lock hl] at h
    injection h with h
    exact ⟨by simp [hl], h.symm⟩

theorem getElem?_some_lt {α : Type} {l : List α} {i : Nat} {a : α}
    (h : l[i]? = some a) : i < l.length := by
  by_contra hge
  rw [List.getElem?_eq_none (by omega)] at h
  exact Option.noConfusion h

/-- Replacing one slot by a widget with the same ghost flag keeps the
per-slot flag information. -/
theorem set_preserves_flag {l : List Widget} {i : Nat} {w w2 : Widget}
    (hw : l[i]? = some w) (hfl : w2.interactive = w.interactive) :
    ∀ {k : Nat} {w' : Widget}, (l.set i w2)[k]? = some w' →
      ∃ w0, l[k]? = some w0 ∧ w'.interactive = w0.interactive := by
  intro k w' hk
  by_cases hik : i = k
  · subst hik
    rw [List.getElem?_set_self (getElem?_some_lt hw)] at hk
    injection hk with hk
    subst hk
    exact ⟨w, hw, hfl⟩
  · rw [List.getElem?_set_ne hik] at hk
    exact ⟨w', hk, rfl⟩

/-- The writing fix-up (`setWritingText("")` as reached from
`removeDynamicText`) preserves the invariant and everything the removal
path later reads: both maps of both categories, the lock, the counters
and the button map. -/
theorem setWritingTextEmpty_spec {s s1 : IState} (hs : IInv s)
    (h : setWritingTextEmpty s = some s1) :
    IInv s1 ∧ s1.texts.idMap = s.texts.idMap ∧
    s1.texts.idxMap = s.texts.idxMap ∧
    s1.sprites.idMap = s.sprites.idMap ∧
    s1.sprites.idxMap = s.sprites.idxMap ∧
    s1.lockState = s.lockState ∧
    s1.nbOfButtonTexts = s.nbOfButtonTexts ∧
    s1.nbOfButtonSprites = s.nbOfButtonSprites ∧
    s1.allButtons = s.allButtons := by
  unfold setWritingTextEmpty at h
  rcases hcur : alookup s.sprites.idMap writingCursorIdentifier with _ | cidx
  · rw [hcur] at h
    exact Option.noConfusion h
  rw [hcur] at h
  dsimp only at h
  rcases hcw : s.sprites.elems[cidx]? with _ | cw
  · rw [hcw] at h
    exact Option.noConfusion h
  rw [hcw] at h
  dsimp only at h
  injection h with h
  subst h
  have htexts : IInv s → CatInv
      { elems := (match alookup s.texts.idMap s.writingTextIdentifier with
          | none => s.texts.elems
          | some idx =>
              match s.texts.elems[idx]? with
              | none => s.texts.elems
              | some w =>
                  if w.bounds.sx = 0 then
                    s.texts.elems.set idx { w with content := emptinessWritingCharacters }
                  else s.texts.elems),
        idMap := s.texts.idMap, idxMap := s.texts.idxMap } ∧ PartInv
      { elems := (match alookup s.texts.idMap s.writingTextIdentifier with
          | none => s.texts.elems
          | some idx =>
              match s.texts.elems[idx]? with
              | none => s.texts.elems
              | some w =>
                  if w.bounds.sx = 0 then
                    s.texts.elems.set idx { w with content := emptinessWritingCharacters }
                  else s.texts.elems),
        idMap := s.texts.idMap, idxMap := s.texts.idxMap } s.nbOfButtonTexts := by
    intro hs
    rcases alookup s.texts.idMap s.writingTextIdentifier with _ | idx
    · exact ⟨CatInv_replace_elems hs.textsInv rfl,
        PartInv_replace_elems hs.textsPart rfl (fun hk => ⟨_, hk, rfl⟩)⟩
    · dsimp only
      rcases hwx : s.texts.elems[idx]? with _ | w
      · exact ⟨CatInv_replace_elems hs.textsInv rfl,
          PartInv_replace_elems hs.textsPart rfl (fun hk => ⟨_, hk, rfl⟩)⟩
      · dsimp only
        by_cases hsx : w.bounds.sx = 0
        · rw [if_pos hsx]
          exact ⟨CatInv_replace_elems hs.textsInv (by simp),
            PartInv_replace_elems hs.textsPart (by simp)
              (@set_preserves_flag s.texts.elems idx w
                { w with content := emptinessWritingCharacters } hwx rfl)⟩
        · rw [if_neg hsx]
          exact ⟨CatInv_replace_elems hs.textsInv rfl,
            PartInv_replace_elems hs.textsPart rfl (fun hk => ⟨_, hk, rfl⟩)⟩
  obtain ⟨hci, hpi⟩ := htexts hs
  refine ⟨⟨hci, ?_, hpi, ?_⟩, rfl, rfl, rfl, rfl, rfl, rfl, rfl, rfl⟩
  · exact CatInv_replace_elems hs.spritesInv (by simp)
  · exact PartInv_replace_elems hs.spritesPart (by simp)
      (@set_preserves_flag s.sprites.elems cidx cw
        { cw with hide := true } hcw rfl)


/-- One category promotion inside `addInteractive`: swapping the slot onto
the boundary, marking it, and incrementing the boundary yields a
consistent category with a correct partition. -/
theorem PartInv_promote {c c1 : Cat} {nb ti : Nat} {id : String}
    (hc : CatInv c) (hp : PartInv c nb)
    (hl : alookup c.idMap id = some ti) (hge : ti ≥ nb)
    (hrel : SwapRel c c1 ti nb) (hnb : nb < c.elems.length) :
    CatInv (markInteractive c1 nb) ∧
    PartInv (markInteractive c1 nb) (nb + 1) ∧
    (markInteractive c1 nb).idMap = c1.idMap ∧
    (markInteractive c1 nb).idxMap = c1.idxMap := by
  have hti : ti < c.elems.length := hc.range hl
  obtain ⟨he, hm, hx, hn1, hn2⟩ := hrel
  have hc1 : CatInv c1 := CatInv_of_swapRel hc hti hnb ⟨he, hm, hx, hn1, hn2⟩
  have hlen1 : c1.elems.length = c.elems.length := by rw [he]; simp
  have hnb1 : c1.elems[nb]? = c.elems[ti]? := by
    rw [he, listSwap_getElem? hti hnb, transp_right]
  rcases hwt : c.elems[ti]? with _ | wt
  · rw [List.getElem?_eq_getElem hti] at hwt
    exact Option.noConfusion hwt
  have hnb1' : c1.elems[nb]? = some wt := by rw [hnb1, hwt]
  have hmark : markInteractive c1 nb =
      { elems := c1.elems.set nb { wt with interactive := true },
        idMap := c1.idMap, idxMap := c1.idxMap } := by
    unfold markInteractive
    rw [hnb1']
  rw [hmark]
  refine ⟨CatInv_replace_elems hc1 (by simp), ?_, rfl, rfl⟩
  refine ⟨by simp [hlen1]; omega, ?_, ?_⟩
  · intro i hi
    show (alookup c1.idxMap i).isSome
    rw [hx i]
    by_cases hieq : i = nb
    · subst hieq
      rw [transp_right]
      rw [hc.fwd hl]
      rfl
    · rw [transp_other (by omega) hieq]
      exact hp.dyn i (by omega)
  · intro k w' hw'
    show w'.interactive = true ↔ k < nb + 1
    by_cases hk : k = nb
    · subst hk
      rw [List.getElem?_set_self (by omega)] at hw'
      injection hw' with hw'
      subst hw'
      simp
    · rw [List.getElem?_set_ne (fun hq => hk hq.symm)] at hw'
      rw [he, listSwap_getElem? hti hnb] at hw'
      by_cases hkt : k = ti
      · subst hkt
        rw [transp_left] at hw'
        have := hp.flag hw'
        constructor
        · intro hfl
          have := this.mp hfl
          omega
        · intro hlt
          omega
      · rw [transp_other hkt hk] at hw'
        have := hp.flag hw'
        constructor
        · intro hfl
          have := this.mp hfl
          omega
        · intro hlt
          exact this.mpr (by omega)

/-- `addInteractive` preserves the registry invariant; it never changes
which identifiers exist in either category. -/
theorem addInteractive_inv {id : String} {fn : Option Nat} {s s' : IState}
    (hs : IInv s) (h : addInteractive id fn s = some s') :
    IInv s' ∧
    (∀ id', (alookup s'.texts.idMap id').isSome =
      (alookup s.texts.idMap id').isSome) ∧
    (∀ id', (alookup s'.sprites.idMap id').isSome =
      (alookup s.sprites.idMap id').isSome) := by
  unfold addInteractive at h
  dsimp only at h
  -- step 1: the text category
  have hstep1 : ∀ s1,
      (match alookup s.texts.idMap id with
        | some ti =>
            if ti ≥ s.nbOfButtonTexts then
              match swapElement s.lockState ti s.nbOfButtonTexts s.texts with
              | none => none
              | some c1 =>
                  some { s with
                           texts := markInteractive c1 s.nbOfButtonTexts
                           nbOfButtonTexts := s.nbOfButtonTexts + 1 }
            else some s
        | none => some s) = some s1 →
      IInv s1 ∧
      (∀ id', (alookup s1.texts.idMap id').isSome =
        (alookup s.texts.idMap id').isSome) ∧
      s1.sprites = s.sprites ∧ s1.nbOfButtonSprites = s.nbOfButtonSprites ∧
      s1.lockState = s.lockState ∧ s1.allButtons = s.allButtons := by
    intro s1 h1
    rcases hti : alookup s.texts.idMap id with _ | ti
    · rw [hti] at h1
      injection h1 with h1
      subst h1
      exact ⟨hs, fun _ => rfl, rfl, rfl, rfl, rfl⟩
    · rw [hti] at h1
      dsimp only at h1
      by_cases hge : ti ≥ s.nbOfButtonTexts
      · rw [if_pos hge] at h1
        rcases hsw : swapElement s.lockState ti s.nbOfButtonTexts s.texts
          with _ | c1
        · rw [hsw] at h1
          exact Option.noConfusion h1
        · rw [hsw] at h1
          injection h1 with h1
          subst h1
          obtain ⟨hlock, hti2, hnb2, hrel⟩ := swapElement_inv hs.textsInv hsw
          obtain ⟨hcinv, hpinv, hmm, hxx⟩ :=
            PartInv_promote hs.textsInv hs.textsPart hti hge hrel hnb2
          refine ⟨⟨hcinv, hs.spritesInv, hpinv, hs.spritesPart⟩, ?_, rfl, rfl, rfl, rfl⟩
          intro id'
          show (alookup (markInteractive c1 s.nbOfButtonTexts).idMap id').isSome = _
          rw [hmm, hrel.2.1 id']
          rcases alookup s.texts.idMap id' with _ | v <;> rfl
      · rw [if_neg hge] at h1
        injection h1 with h1
        subst h1
        exact ⟨hs, fun _ => rfl, rfl, rfl, rfl, rfl⟩
  rcases hst1 : (match alookup s.texts.idMap id with
      | some ti =>
          if ti ≥ s.nbOfButtonTexts then
            match swapElement s.lockState ti s.nbOfButtonTexts s.texts with
            | none => none
            | some c1 =>
                some { s with
                         texts := markInteractive c1 s.nbOfButtonTexts
                         nbOfButtonTexts := s.nbOfButtonTexts + 1 }
          else some s
      | none => some s) with _ | s1
  · rw [hst1] at h
    exact Option.noConfusion h
  rw [hst1] at h
  dsimp only at h
  obtain ⟨hs1, htexts1, hspr1, hnbs1, hlock1, hbtn1⟩ := hstep1 s1 hst1
  -- step 2: the sprite category
  have hstep2 : ∀ s2,
      (match alookup s.sprites.idMap id with
        | some si =>
            if si ≥ s1.nbOfButtonSprites then
              match swapElement s1.lockState si s1.nbOfButtonSprites s1.sprites with
              | none => none
              | some c2 =>
                  some { s1 with
                           sprites := markInteractive c2 s1.nbOfButtonSprites
                           nbOfButtonSprites := s1.nbOfButtonSprites + 1 }
            else some s1
        | none => some s1) = some s2 →
      IInv s2 ∧
      (∀ id', (alookup s2.sprites.idMap id').isSome =
        (alookup s1.sprites.idMap id').isSome) ∧
      s2.texts = s1.texts := by
    intro s2 h2
    rcases hsi : alookup s.sprites.idMap id with _ | si
    · rw [hsi] at h2
      injection h2 with h2
      subst h2
      exact ⟨hs1, fun _ => rfl, rfl⟩
    · rw [hsi] at h2
      dsimp only at h2
      by_cases hge : si ≥ s1.nbOfButtonSprites
      · rw [if_pos hge] at h2
        rcases hsw : swapElement s1.lockState si s1.nbOfButtonSprites s1.sprites
          with _ | c2
        · rw [hsw] at h2
          exact Option.noConfusion h2
        · rw [hsw] at h2
          injection h2 with h2
          subst h2
          obtain ⟨hlock, hsi2, hnb2, hrel⟩ := swapElement_inv hs1.spritesInv hsw
          have hsi1 : alookup s1.sprites.idMap id = some si := by
            rw [hspr1]
            exact hsi
          obtain ⟨hcinv, hpinv, hmm, hxx⟩ :=
            PartInv_promote hs1.spritesInv hs1.spritesPart hsi1 hge hrel hnb2
          refine ⟨⟨hs1.textsInv, hcinv, hs1.textsPart, hpinv⟩, ?_, rfl⟩
          intro id'
          show (alookup (markInteractive c2 s1.nbOfButtonSprites).idMap id').isSome = _
          rw [hmm, hrel.2.1 id']
          rcases alookup s1.sprites.idMap id' with _ | v <;> rfl
      · rw [if_neg hge] at h2
        injection h2 with h2
        subst h2
        exact ⟨hs1, fun _ => rfl, rfl⟩
  rcases hst2 : (match alookup s.sprites.idMap id with
      | some si =>
          if si ≥ s1.nbOfButtonSprites then
            match swapElement s1.lockState si s1.nbOfButtonSprites s1.sprites with
            | none => none
            | some c2 =>
                some { s1 with
                         sprites := markInteractive c2 s1.nbOfButtonSprites
                         nbOfButtonSprites := s1.nbOfButtonSprites + 1 }
          else some s1
      | none => some s1) with _ | s2
  · rw [hst2] at h
    exact Option.noConfusion h
  rw [hst2] at h
  dsimp only at h
  injection h with h
  subst h
  obtain ⟨hs2, hspr2, htx2⟩ := hstep2 s2 hst2
  refine ⟨⟨hs2.textsInv, hs2.spritesInv, hs2.textsPart, hs2.spritesPart⟩, ?_, ?_⟩
  · intro id'
    show (alookup s2.texts.idMap id').isSome = _
    rw [htx2]
    exact htexts1 id'
  · intro id'
    show (alookup s2.sprites.idMap id').isSome = _
    rw [hspr2 id', hspr1]


/-- What a successful `InteractiveInterface::removeDynamicText` call did:
invariant preserved, sprite identifiers untouched, other text identifiers
survive, and the hovered item, boundary and button map are updated exactly
as coded. -/
theorem iRemoveDynamicText_inv {self : Nat} {hov : Item} {id : String}
    {s s' : IState} {hov' : Item} (hs : IInv s)
    (h : iRemoveDynamicText self hov id s = some (s', hov')) :
    IInv s' ∧
    s'.sprites.idMap = s.sprites.idMap ∧
    s'.nbOfButtonSprites = s.nbOfButtonSprites ∧
    (∀ {id' v}, id' ≠ id → alookup s.texts.idMap id' = some v →
      (alookup s'.texts.idMap id').isSome) ∧
    ((s' = s ∧ hov' = hov ∧ alookup s.texts.idMap id = none) ∨
     (∃ index, alookup s.texts.idMap id = some index ∧
       alookup s'.texts.idMap id = none ∧
       (hov' = Item.empty ∨
        (hov' = hov ∧ ¬(hov.igui = some self ∧ hov.identifier = id))) ∧
       ((index ≥ s.nbOfButtonTexts ∧ s'.allButtons = s.allButtons ∧
         s'.nbOfButtonTexts = s.nbOfButtonTexts) ∨
        (index < s.nbOfButtonTexts ∧
         decrementButton id s.allButtons = some s'.allButtons ∧
         s'.nbOfButtonTexts = s.nbOfButtonTexts - 1)))) := by
  unfold iRemoveDynamicText at h
  rcases hl : alookup s.texts.idMap id with _ | index
  · rw [hl] at h
    injection h with h
    injection h with h1 h2
    subst h1
    subst h2
    refine ⟨hs, rfl, rfl, ?_, Or.inl ⟨rfl, rfl, rfl⟩⟩
    intro id' v hne hv
    rw [hv]
    rfl
  rw [hl] at h
  dsimp only at h
  have hswing : ∀ s1,
      (if s.writingTextIdentifier = id then setWritingTextEmpty s else some s) =
        some s1 →
      IInv s1 ∧ s1.texts.idMap = s.texts.idMap ∧
      s1.sprites.idMap = s.sprites.idMap ∧ s1.lockState = s.lockState ∧
      s1.nbOfButtonTexts = s.nbOfButtonTexts ∧
      s1.nbOfButtonSprites = s.nbOfButtonSprites ∧
      s1.allButtons = s.allButtons := by
    intro s1 h1
    by_cases hwr : s.writingTextIdentifier = id
    · rw [if_pos hwr] at h1
      obtain ⟨a, b, _, c, _, d, e, f, g⟩ := setWritingTextEmpty_spec hs h1
      exact ⟨a, b, c, d, e, f, g⟩
    · rw [if_neg hwr] at h1
      injection h1 with h1
      subst h1
      exact ⟨hs, rfl, rfl, rfl, rfl, rfl, rfl⟩
  rcases hs1eq : (if s.writingTextIdentifier = id then setWritingTextEmpty s
      else some s) with _ | s1
  · rw [hs1eq] at h
    exact Option.noConfusion h
  rw [hs1eq] at h
  dsimp only at h
  obtain ⟨hs1, hmap1, hsprmap1, hlock1, hnbt1, hnbs1, hbtn1⟩ := hswing s1 hs1eq
  rcases hrem : mutRemoveDynamicText s1.lockState id s1.texts with _ | ctexts
  · rw [hrem] at h
    exact Option.noConfusion h
  rw [hrem] at h
  dsimp only at h
  obtain ⟨hlockf, hcases⟩ := mutRemoveDynamicText_inv hs1.textsInv hrem
  have hl1 : alookup s1.texts.idMap id = some index := by
    rw [hmap1]
    exact hl
  rcases hcases with ⟨habs, _⟩ | ⟨idx, hidx, hpost⟩
  · rw [hl1] at habs
    exact Option.noConfusion habs
  have hidxeq : index = idx := Option.some.inj (hl1.symm.trans hidx)
  subst hidxeq
  have hidxlt : index < s1.texts.elems.length := hs1.textsInv.range hl1
  by_cases hge : index ≥ s1.nbOfButtonTexts
  · rw [if_pos hge] at h
    injection h with h
    injection h with h1 h2
    subst h1
    refine ⟨⟨hpost.inv, hs1.spritesInv,
      PartInv_remove_noninteractive hs1.textsPart hpost hidxlt hge,
      hs1.spritesPart⟩, hsprmap1, hnbs1, ?_, ?_⟩
    · intro id' v hne hv
      have hv1 : alookup s1.texts.idMap id' = some v := by
        rw [hmap1]
        exact hv
      rw [(hpost.keep hne hv1).1]
      rfl
    · refine Or.inr ⟨index, rfl, hpost.gone, ?_,
        Or.inl ⟨by rw [← hnbt1]; exact hge, hbtn1, hnbt1⟩⟩
      by_cases hmatch : hov.igui = some self ∧ hov.identifier = id
      · rw [if_pos hmatch] at h2
        exact Or.inl h2.symm
      · rw [if_neg hmatch] at h2
        exact Or.inr ⟨h2.symm, hmatch⟩
  · rw [if_neg hge] at h
    rcases hsw2 : swapElement s1.lockState index (s1.nbOfButtonTexts - 1) ctexts
      with _ | ctexts2
    · rw [hsw2] at h
      exact Option.noConfusion h
    rw [hsw2] at h
    dsimp only at h
    rcases hdec : decrementButton id s1.allButtons with _ | btns
    · rw [hdec] at h
      exact Option.noConfusion h
    rw [hdec] at h
    injection h with h
    injection h with h1 h2
    subst h1
    obtain ⟨_, hidxr, hnbr, hrel2⟩ := swapElement_inv hpost.inv hsw2
    have hlt : index < s1.nbOfButtonTexts := by omega
    refine ⟨⟨CatInv_of_swapRel hpost.inv hidxr hnbr hrel2, hs1.spritesInv,
      PartInv_remove_interactive hs1.textsPart hpost hlt hrel2 hidxr hnbr,
      hs1.spritesPart⟩, hsprmap1, hnbs1, ?_, ?_⟩
    · intro id' v hne hv
      have hv1 : alookup s1.texts.idMap id' = some v := by
        rw [hmap1]
        exact hv
      show (alookup ctexts2.idMap id').isSome
      rw [hrel2.2.1 id', (hpost.keep hne hv1).1]
      rfl
    · refine Or.inr ⟨index, rfl, ?_, ?_, Or.inr
        ⟨by rw [← hnbt1]; exact hlt,
         by show decrementButton id s.allButtons = some btns
            rw [← hbtn1]
            exact hdec,
         by show s1.nbOfButtonTexts - 1 = s.nbOfButtonTexts - 1
            rw [hnbt1]⟩⟩
      · show alookup ctexts2.idMap id = none
        rw [hrel2.2.1 id, hpost.gone]
        rfl
      · by_cases hmatch : hov.igui = some self ∧ hov.identifier = id
        · rw [if_pos hmatch] at h2
          exact Or.inl h2.symm
        · rw [if_neg hmatch] at h2
          exact Or.inr ⟨h2.symm, hmatch⟩

/-- The sprite counterpart of `iRemoveDynamicText_inv`
(no writing-text handling). -/
theorem iRemoveDynamicSprite_inv {self : Nat} {hov : Item} {id : String}
    {s s' : IState} {hov' : Item} (hs : IInv s)
    (h : iRemoveDynamicSprite self hov id s = some (s', hov')) :
    IInv s' ∧
    s'.texts.idMap = s.texts.idMap ∧
    s'.nbOfButtonTexts = s.nbOfButtonTexts ∧
    (∀ {id' v}, id' ≠ id → alookup s.sprites.idMap id' = some v →
      (alookup s'.sprites.idMap id').isSome) ∧
    ((s' = s ∧ hov' = hov ∧ alookup s.sprites.idMap id = none) ∨
     (∃ index, alookup s.sprites.idMap id = some index ∧
       alookup s'.sprites.idMap id = none ∧
       (hov' = Item.empty ∨
        (hov' = hov ∧ ¬(hov.igui = some self ∧ hov.identifier = id))) ∧
       ((index ≥ s.nbOfButtonSprites ∧ s'.allButtons = s.allButtons ∧
         s'.nbOfButtonSprites = s.nbOfButtonSprites) ∨
        (index < s.nbOfButtonSprites ∧
         decrementButton id s.allButtons = some s'.allButtons ∧
         s'.nbOfButtonSprites = s.nbOfButtonSprites - 1)))) := by
  unfold iRemoveDynamicSprite at h
  rcases hl : alookup s.sprites.idMap id with _ | index
  · rw [hl] at h
    injection h with h
    injection h with h1 h2
    subst h1
    subst h2
    refine ⟨hs, rfl, rfl, ?_, Or.inl ⟨rfl, rfl, rfl⟩⟩
    intro id' v hne hv
    rw [hv]
    rfl
  rw [hl] at h
  dsimp only at h
  rcases hrem : mutRemoveDynamicSprite s.lockState id s.sprites with _ | csprites
  · rw [hrem] at h
    exact Option.noConfusion h
  rw [hrem] at h
  dsimp only at h
  obtain ⟨hlockf, hcases⟩ := mutRemoveDynamicSprite_inv hs.spritesInv hrem
  rcases hcases with ⟨habs, _⟩ | ⟨idx, hidx, hpost⟩
  · rw [hl] at habs
    exact Option.noConfusion habs
  have hidxeq : index = idx := Option.some.inj (hl.symm.trans hidx)
  subst hidxeq
  have hidxlt : index < s.sprites.elems.length := hs.spritesInv.range hl
  by_cases hge : index ≥ s.nbOfButtonSprites
  · rw [if_pos hge] at h
    injection h with h
    injection h with h1 h2
    subst h1
    refine ⟨⟨hs.textsInv, hpost.inv, hs.textsPart,
      PartInv_remove_noninteractive hs.spritesPart hpost hidxlt hge⟩,
      rfl, rfl, ?_, ?_⟩
    · intro id' v hne hv
      rw [(hpost.keep hne hv).1]
      rfl
    · refine Or.inr ⟨index, rfl, hpost.gone, ?_, Or.inl ⟨hge, rfl, rfl⟩⟩
      by_cases hmatch : hov.igui = some self ∧ hov.identifier = id
      · rw [if_pos hmatch] at h2
        exact Or.inl h2.symm
      · rw [if_neg hmatch] at h2
        exact Or.inr ⟨h2.symm, hmatch⟩
  · rw [if_neg hge] at h
    rcases hsw2 : swapElement s.lockState index (s.nbOfButtonSprites - 1) csprites
      with _ | csprites2
    · rw [hsw2] at h
      exact Option.noConfusion h
    rw [hsw2] at h
    dsimp only at h
    rcases hdec : decrementButton id s.allButtons with _ | btns
    · rw [hdec] at h
      exact Option.noConfusion h
    rw [hdec] at h
    injection h with h
    injection h with h1 h2
    subst h1
    obtain ⟨_, hidxr, hnbr, hrel2⟩ := swapElement_inv hpost.inv hsw2
    have hlt : index < s.nbOfButtonSprites := by omega
    refine ⟨⟨hs.textsInv, CatInv_of_swapRel hpost.inv hidxr hnbr hrel2,
      hs.textsPart,
      PartInv_remove_interactive hs.spritesPart hpost hlt hrel2 hidxr hnbr⟩,
      rfl, rfl, ?_, ?_⟩
    · intro id' v hne hv
      show (alookup csprites2.idMap id').isSome
      rw [hrel2.2.1 id', (hpost.keep hne hv).1]
      rfl
    · refine Or.inr ⟨index, rfl, ?_, ?_, Or.inr ⟨hlt, rfl, rfl⟩⟩
      · show alookup csprites2.idMap id = none
        rw [hrel2.2.1 id, hpost.gone]
        rfl
      · by_cases hmatch : hov.igui = some self ∧ hov.identifier = id
        · rw [if_pos hmatch] at h2
          exact Or.inl h2.symm
        · rw [if_neg hmatch] at h2
          exact Or.inr ⟨h2.symm, hmatch⟩


/-! ### Scan lemmas and the world invariant -/

theorem scanLoop_hit {c : Cat} {pos : Vec2} {ident : String} {slot : Nat} :
    ∀ {n i : Nat}, scanLoop c pos i n = some (some (ident, slot)) →
    alookup c.idxMap slot = some ident ∧ i ≤ slot ∧ slot < i + n ∧
    ∃ w, c.elems[slot]? = some w ∧ w.hide = false ∧
      w.bounds.containsPos pos = true := by
  intro n
  induction n with
  | zero =>
      intro i h
      unfold scanLoop at h
      injection h with h
      exact Option.noConfusion h
  | succ rem ih =>
      intro i h
      unfold scanLoop at h
      rcases hw : c.elems[i]? with _ | w
      · rw [hw] at h
        exact Option.noConfusion h
      rw [hw] at h
      dsimp only at h
      by_cases hhit : (!w.hide && w.bounds.containsPos pos) = true
      · rw [if_pos hhit] at h
        rcases hid : alookup c.idxMap i with _ | ident'
        · rw [hid] at h
          exact Option.noConfusion h
        rw [hid] at h
        injection h with h
        injection h with h
        injection h with h1 h2
        subst h2
        subst h1
        simp only [Bool.and_eq_true, Bool.not_eq_true'] at hhit
        exact ⟨hid, Nat.le_refl _, by omega, w, hw, hhit.1, hhit.2⟩
      · rw [if_neg hhit] at h
        obtain ⟨ha, hb, hcc, hd⟩ := ih h
        exact ⟨ha, by omega, by omega, hd⟩

/-- Where the result of `eventUpdateHovered` can come from: the unchanged
previous item (fast path), the empty item, or a scan hit registered in the
reverse index map of its category. -/
theorem eventUpdateHovered_cases {self : Nat} {s : IState} {hov : Item}
    {pos : Vec2} {item : Item}
    (h : eventUpdateHovered self s hov pos = some item) :
    item = hov ∨ item = Item.empty ∨
    (∃ i ident, item = ⟨some self, ident, ItemPtr.text i⟩ ∧
      alookup s.texts.idxMap i = some ident) ∨
    (∃ i ident, item = ⟨some self, ident, ItemPtr.sprite i⟩ ∧
      alookup s.sprites.idxMap i = some ident) := by
  have hfull : ∀ (hq : fullScan self s pos = some item),
      item = Item.empty ∨
      (∃ i ident, item = ⟨some self, ident, ItemPtr.text i⟩ ∧
        alookup s.texts.idxMap i = some ident) ∨
      (∃ i ident, item = ⟨some self, ident, ItemPtr.sprite i⟩ ∧
        alookup s.sprites.idxMap i = some ident) := by
    intro hq
    unfold fullScan at hq
    rcases ht : scanLoop s.texts pos 0 s.nbOfButtonTexts with _ | r1
    · rw [ht] at hq
      exact Option.noConfusion hq
    rw [ht] at hq
    rcases r1 with _ | ⟨ident, i⟩
    · dsimp only at hq
      rcases hsp : scanLoop s.sprites pos 0 s.nbOfButtonSprites with _ | r2
      · rw [hsp] at hq
        exact Option.noConfusion hq
      rw [hsp] at hq
      rcases r2 with _ | ⟨ident, i⟩
      · injection hq with hq
        exact Or.inl hq.symm
      · injection hq with hq
        exact Or.inr (Or.inr ⟨i, ident, hq.symm, (scanLoop_hit hsp).1⟩)
    · dsimp only at hq
      injection hq with hq
      exact Or.inr (Or.inl ⟨i, ident, hq.symm, (scanLoop_hit ht).1⟩)
  unfold eventUpdateHovered at h
  by_cases hcond : hov.igui = some self ∧ hov.ptr ≠ ItemPtr.mono
  · rw [if_pos hcond] at h
    rcases hf : fastCheck s hov pos with _ | b
    · rw [hf] at h
      exact Option.noConfusion h
    rw [hf] at h
    rcases b with _ | _
    · exact Or.inr (hfull h)
    · injection h with h
      exact Or.inl h.symm
  · rw [if_neg hcond] at h
    exact Or.inr (hfull h)

/-- The process-wide invariant: live registries have duplicate-free
identities below the counter and satisfy the registry invariant, and the
static hovered item only ever points at a live registry and at an
identifier currently registered in the pointed-at category. -/
structure WInv (w : World) : Prop where
  nodup : (akeys w.regs).Nodup
  lt : ∀ {rid s}, alookup w.regs rid = some s → rid < w.nextId
  inv : ∀ {rid s}, alookup w.regs rid = some s → IInv s
  hov : ∀ {rid}, w.hovered.igui = some rid →
    ∃ s, alookup w.regs rid = some s ∧
      ((∃ i, w.hovered.ptr = ItemPtr.text i ∧
        (alookup s.texts.idMap w.hovered.identifier).isSome) ∨
       (∃ i, w.hovered.ptr = ItemPtr.sprite i ∧
        (alookup s.sprites.idMap w.hovered.identifier).isSome))

theorem IInv_initIState : IInv initIState :=
  iChk_sound (by decide)

theorem WInv_worldStart : WInv worldStart := by
  refine ⟨List.nodup_nil, ?_, ?_, ?_⟩
  · intro rid s hl
    exact Option.noConfusion hl
  · intro rid s hl
    exact Option.noConfusion hl
  · intro rid hig
    exact Option.noConfusion hig


/-- Preservation through `updateReg` for operations that keep the registry
invariant and never make a registered identifier disappear. -/
theorem updateReg_winv {w w' : World} {rid : Nat} {f : IState → Option IState}
    (hw : WInv w) (h : updateReg w rid f = some w')
    (hf : ∀ {s s'}, alookup w.regs rid = some s → f s = some s' → IInv s →
      IInv s' ∧
      (∀ id', (alookup s.texts.idMap id').isSome →
        (alookup s'.texts.idMap id').isSome) ∧
      (∀ id', (alookup s.sprites.idMap id').isSome →
        (alookup s'.sprites.idMap id').isSome)) :
    WInv w' := by
  unfold updateReg at h
  rcases hl : alookup w.regs rid with _ | s
  · rw [hl] at h
    exact Option.noConfusion h
  rw [hl] at h
  dsimp only at h
  rcases hfs : f s with _ | s'
  · rw [hfs] at h
    exact Option.noConfusion h
  rw [hfs] at h
  injection h with h
  subst h
  obtain ⟨hinv', htext, hspr⟩ := hf hl hfs (hw.inv hl)
  refine ⟨nodup_akeys_aset _ hw.nodup, ?_, ?_, ?_⟩
  · intro rid' s'' hl'
    by_cases he : rid' = rid
    · subst he
      exact hw.lt hl
    · rw [alookup_aset_ne _ _ he] at hl'
      exact hw.lt hl'
  · intro rid' s'' hl'
    by_cases he : rid' = rid
    · subst he
      rw [alookup_aset_self] at hl'
      injection hl' with hl'
      subst hl'
      exact hinv'
    · rw [alookup_aset_ne _ _ he] at hl'
      exact hw.inv hl'
  · intro rid' hig
    obtain ⟨s₀, hs₀, hcase⟩ := hw.hov hig
    by_cases he : rid' = rid
    · subst he
      rw [hl] at hs₀
      injection hs₀ with hs₀
      subst hs₀
      refine ⟨s', by rw [alookup_aset_self], ?_⟩
      rcases hcase with ⟨i, hptr, hsome⟩ | ⟨i, hptr, hsome⟩
      · exact Or.inl ⟨i, hptr, htext _ hsome⟩
      · exact Or.inr ⟨i, hptr, hspr _ hsome⟩
    · exact ⟨s₀, by rw [alookup_aset_ne _ _ he]; exact hs₀, hcase⟩

/-- Every world operation preserves the process-wide invariant. -/
theorem execOp_winv {w w' : World} {op : WOp} (hw : WInv w)
    (h : execOp w op = some w') : WInv w' := by
  cases op with
  | create =>
      unfold execOp at h
      dsimp only at h
      injection h with h
      subst h
      refine ⟨nodup_akeys_aset _ hw.nodup, ?_, ?_, ?_⟩
      · intro rid s hl
        have hl' : alookup (aset w.regs w.nextId initIState) rid = some s := hl
        show rid < w.nextId + 1
        by_cases he : rid = w.nextId
        · omega
        · rw [alookup_aset_ne _ _ he] at hl'
          have := hw.lt hl'
          omega
      · intro rid s hl
        have hl' : alookup (aset w.regs w.nextId initIState) rid = some s := hl
        by_cases he : rid = w.nextId
        · subst he
          rw [alookup_aset_self] at hl'
          injection hl' with hl'
          subst hl'
          exact IInv_initIState
        · rw [alookup_aset_ne _ _ he] at hl'
          exact hw.inv hl'
      · intro rid hig
        obtain ⟨s₀, hs₀, hcase⟩ := hw.hov hig
        have hne : rid ≠ w.nextId := by
          have := hw.lt hs₀
          omega
        refine ⟨s₀, ?_, hcase⟩
        show alookup (aset w.regs w.nextId initIState) rid = some s₀
        rw [alookup_aset_ne _ _ hne]
        exact hs₀
  | destroy rid =>
      unfold execOp destroyReg at h
      dsimp only at h
      rcases hl : alookup w.regs rid with _ | s
      · rw [hl] at h
        exact Option.noConfusion h
      rw [hl] at h
      dsimp only at h
      injection h with h
      subst h
      refine ⟨nodup_akeys_aerase _ hw.nodup, ?_, ?_, ?_⟩
      · intro rid' s' hl'
        by_cases he : rid' = rid
        · subst he
          rw [alookup_aerase_self hw.nodup] at hl'
          exact Option.noConfusion hl'
        · rw [alookup_aerase_ne _ he] at hl'
          exact hw.lt hl'
      · intro rid' s' hl'
        by_cases he : rid' = rid
        · subst he
          rw [alookup_aerase_self hw.nodup] at hl'
          exact Option.noConfusion hl'
        · rw [alookup_aerase_ne _ he] at hl'
          exact hw.inv hl'
      · intro rid' hig
        show ∃ s, alookup (aerase w.regs rid) rid' = some s ∧
          ((∃ i, (if w.hovered.igui = some rid then Item.empty
              else w.hovered).ptr = ItemPtr.text i ∧
            (alookup s.texts.idMap (if w.hovered.igui = some rid
              then Item.empty else w.hovered).identifier).isSome) ∨
           (∃ i, (if w.hovered.igui = some rid then Item.empty
              else w.hovered).ptr = ItemPtr.sprite i ∧
            (alookup s.sprites.idMap (if w.hovered.igui = some rid
              then Item.empty else w.hovered).identifier).isSome))
        have hig' : (if w.hovered.igui = some rid then Item.empty
            else w.hovered).igui = some rid' := hig
        by_cases hc : w.hovered.igui = some rid
        · rw [if_pos hc] at hig'
          exact Option.noConfusion hig'
        · rw [if_neg hc] at hig' ⊢
          obtain ⟨s₀, hs₀, hcase⟩ := hw.hov hig'
          have he : rid' ≠ rid := by
            intro hq
            subst hq
            exact hc hig'
          exact ⟨s₀, by rw [alookup_aerase_ne _ he]; exact hs₀, hcase⟩
  | addText rid wid =>
      refine updateReg_winv hw h ?_
      intro s s' hl hfs hs
      obtain ⟨c', hadd, hmapeq⟩ := Option.map_eq_some'.mp hfs
      obtain ⟨hlock, hc'⟩ := addPlain_inv hadd
      subst hc'
      subst hmapeq
      refine ⟨⟨CatInv_append hs.textsInv _, hs.spritesInv, ?_, hs.spritesPart⟩,
        fun id' hq => hq, fun id' hq => hq⟩
      exact PartInv_append hs.textsPart rfl rfl (fun i hi => rfl)
  | addSprite rid wid =>
      refine updateReg_winv hw h ?_
      intro s s' hl hfs hs
      obtain ⟨c', hadd, hmapeq⟩ := Option.map_eq_some'.mp hfs
      obtain ⟨hlock, hc'⟩ := addPlain_inv hadd
      subst hc'
      subst hmapeq
      refine ⟨⟨hs.textsInv, CatInv_append hs.spritesInv _, hs.textsPart, ?_⟩,
        fun id' hq => hq, fun id' hq => hq⟩
      exact PartInv_append hs.spritesPart rfl rfl (fun i hi => rfl)
  | addDynText rid id wid =>
      refine updateReg_winv hw h ?_
      intro s s' hl hfs hs
      obtain ⟨c', hadd, hmapeq⟩ := Option.map_eq_some'.mp hfs
      subst hmapeq
      rcases addDynamic_inv hs.textsInv hadd with ⟨hpres, hc'⟩ |
        ⟨habs, hlock, hcinv, helems, hnew, hold, hidxo, hidxn⟩
      · subst hc'
        exact ⟨⟨hs.textsInv, hs.spritesInv, hs.textsPart, hs.spritesPart⟩,
          fun id' hq => hq, fun id' hq => hq⟩
      · refine ⟨⟨hcinv, hs.spritesInv, ?_, hs.spritesPart⟩, ?_, fun id' hq => hq⟩
        · exact PartInv_append hs.textsPart rfl helems hidxo
        · intro id' hq
          by_cases he : id' = id
          · subst he
            rw [hnew]
            rfl
          · rw [hold id' he]
            exact hq
  | addDynSprite rid id wid =>
      refine updateReg_winv hw h ?_
      intro s s' hl hfs hs
      obtain ⟨c', hadd, hmapeq⟩ := Option.map_eq_some'.mp hfs
      subst hmapeq
      rcases addDynamic_inv hs.spritesInv hadd with ⟨hpres, hc'⟩ |
        ⟨habs, hlock, hcinv, helems, hnew, hold, hidxo, hidxn⟩
      · subst hc'
        exact ⟨⟨hs.textsInv, hs.spritesInv, hs.textsPart, hs.spritesPart⟩,
          fun id' hq => hq, fun id' hq => hq⟩
      · refine ⟨⟨hs.textsInv, hcinv, hs.textsPart, ?_⟩, fun id' hq => hq, ?_⟩
        · exact PartInv_append hs.spritesPart rfl helems hidxo
        · intro id' hq
          by_cases he : id' = id
          · subst he
            rw [hnew]
            rfl
          · rw [hold id' he]
            exact hq
  | interact rid id fn =>
      refine updateReg_winv hw h ?_
      intro s s' hl hfs hs
      obtain ⟨hinv, htxt, hspr⟩ := addInteractive_inv hs hfs
      exact ⟨hinv, fun id' hq => by rw [htxt id']; exact hq,
        fun id' hq => by rw [hspr id']; exact hq⟩
  | lock rid =>
      unfold execOp at h
      dsimp only at h
      refine updateReg_winv hw h ?_
      intro s s' hl hfs hs
      injection hfs with hfs
      subst hfs
      exact ⟨⟨hs.textsInv, hs.spritesInv, hs.textsPart, hs.spritesPart⟩,
        fun id' hq => hq, fun id' hq => hq⟩
  | removeText rid id =>
      unfold execOp at h
      dsimp only at h
      rcases hl : alookup w.regs rid with _ | s
      · rw [hl] at h
        exact Option.noConfusion h
      rw [hl] at h
      dsimp only at h
      rcases hr : iRemoveDynamicText rid w.hovered id s with _ | p
      · rw [hr] at h
        exact Option.noConfusion h
      obtain ⟨s', hov'⟩ := p
      rw [hr] at h
      injection h with h
      subst h
      obtain ⟨hinv', hsprmap, hnbs, hkeep, hdisj⟩ :=
        iRemoveDynamicText_inv (hw.inv hl) hr
      refine ⟨nodup_akeys_aset _ hw.nodup, ?_, ?_, ?_⟩
      · intro rid' s'' hl'
        by_cases he : rid' = rid
        · subst he
          exact hw.lt hl
        · rw [alookup_aset_ne _ _ he] at hl'
          exact hw.lt hl'
      · intro rid' s'' hl'
        by_cases he : rid' = rid
        · subst he
          rw [alookup_aset_self] at hl'
          injection hl' with hl'
          subst hl'
          exact hinv'
        · rw [alookup_aset_ne _ _ he] at hl'
          exact hw.inv hl'
      · intro rid' hig
        have hhov : hov' = w.hovered ∧
            (w.hovered.igui = some rid → w.hovered.identifier ≠ id) ∨
            hov' = Item.empty ∨ (s' = s ∧ hov' = w.hovered) := by
          rcases hdisj with ⟨hse, hhe, _⟩ | ⟨index, _, _, hhc, _⟩
          · exact Or.inr (Or.inr ⟨hse, hhe⟩)
          · rcases hhc with hhe | ⟨hhe, hnm⟩
            · exact Or.inr (Or.inl hhe)
            · refine Or.inl ⟨hhe, ?_⟩
              intro higr hident
              exact hnm ⟨higr, hident⟩
        rcases hhov with ⟨hhe, hnm⟩ | hhe | ⟨hse, hhe⟩
        · rw [hhe] at hig ⊢
          obtain ⟨s₀, hs₀, hcase⟩ := hw.hov hig
          by_cases he : rid' = rid
          · subst he
            rw [hl] at hs₀
            injection hs₀ with hs₀
            subst hs₀
            refine ⟨s', by rw [alookup_aset_self], ?_⟩
            have hident := hnm hig
            rcases hcase with ⟨i, hptr, hsome⟩ | ⟨i, hptr, hsome⟩
            · rcases hq : alookup s.texts.idMap w.hovered.identifier with _ | v
              · rw [hq] at hsome
                exact Bool.noConfusion hsome
              · exact Or.inl ⟨i, hptr, hkeep hident hq⟩
            · refine Or.inr ⟨i, hptr, ?_⟩
              rw [hsprmap]
              exact hsome
          · exact ⟨s₀, by rw [alookup_aset_ne _ _ he]; exact hs₀, hcase⟩
        · rw [hhe] at hig
          exact Option.noConfusion hig
        · subst hse
          rw [hhe] at hig ⊢
          obtain ⟨s₀, hs₀, hcase⟩ := hw.hov hig
          by_cases he : rid' = rid
          · subst he
            rw [hl] at hs₀
            injection hs₀ with hs₀
            subst hs₀
            exact ⟨s', by rw [alookup_aset_self], hcase⟩
          · exact ⟨s₀, by rw [alookup_aset_ne _ _ he]; exact hs₀, hcase⟩
  | removeSprite rid id =>
      unfold execOp at h
      dsimp only at h
      rcases hl : alookup w.regs rid with _ | s
      · rw [hl] at h
        exact Option.noConfusion h
      rw [hl] at h
      dsimp only at h
      rcases hr : iRemoveDynamicSprite rid w.hovered id s with _ | p
      · rw [hr] at h
        exact Option.noConfusion h
      obtain ⟨s', hov'⟩ := p
      rw [hr] at h
      injection h with h
      subst h
      obtain ⟨hinv', htxtmap, hnbt, hkeep, hdisj⟩ :=
        iRemoveDynamicSprite_inv (hw.inv hl) hr
      refine ⟨nodup_akeys_aset _ hw.nodup, ?_, ?_, ?_⟩
      · intro rid' s'' hl'
        by_cases he : rid' = rid
        · subst he
          exact hw.lt hl
        · rw [alookup_aset_ne _ _ he] at hl'
          exact hw.lt hl'
      · intro rid' s'' hl'
        by_cases he : rid' = rid
        · subst he
          rw [alookup_aset_self] at hl'
          injection hl' with hl'
          subst hl'
          exact hinv'
        · rw [alookup_aset_ne _ _ he] at hl'
          exact hw.inv hl'
      · intro rid' hig
        have hhov : hov' = w.hovered ∧
            (w.hovered.igui = some rid → w.hovered.identifier ≠ id) ∨
            hov' = Item.empty ∨ (s' = s ∧ hov' = w.hovered) := by
          rcases hdisj with ⟨hse, hhe, _⟩ | ⟨index, _, _, hhc, _⟩
          · exact Or.inr (Or.inr ⟨hse, hhe⟩)
          · rcases hhc with hhe | ⟨hhe, hnm⟩
            · exact Or.inr (Or.inl hhe)
            · refine Or.inl ⟨hhe, ?_⟩
              intro higr hident
              exact hnm ⟨higr, hident⟩
        rcases hhov with ⟨hhe, hnm⟩ | hhe | ⟨hse, hhe⟩
        · rw [hhe] at hig ⊢
          obtain ⟨s₀, hs₀, hcase⟩ := hw.hov hig
          by_cases he : rid' = rid
          · subst he
            rw [hl] at hs₀
            injection hs₀ with hs₀
            subst hs₀
            refine ⟨s', by rw [alookup_aset_self], ?_⟩
            have hident := hnm hig
            rcases hcase with ⟨i, hptr, hsome⟩ | ⟨i, hptr, hsome⟩
            · refine Or.inl ⟨i, hptr, ?_⟩
              rw [htxtmap]
              exact hsome
            · rcases hq : alookup s.sprites.idMap w.hovered.identifier with _ | v
              · rw [hq] at hsome
                exact Bool.noConfusion hsome
              · exact Or.inr ⟨i, hptr, hkeep hident hq⟩
          · exact ⟨s₀, by rw [alookup_aset_ne _ _ he]; exact hs₀, hcase⟩
        · rw [hhe] at hig
          exact Option.noConfusion hig
        · subst hse
          rw [hhe] at hig ⊢
          obtain ⟨s₀, hs₀, hcase⟩ := hw.hov hig
          by_cases he : rid' = rid
          · subst he
            rw [hl] at hs₀
            injection hs₀ with hs₀
            subst hs₀
            exact ⟨s', by rw [alookup_aset_self], hcase⟩
          · exact ⟨s₀, by rw [alookup_aset_ne _ _ he]; exact hs₀, hcase⟩
  | moveHover rid pos =>
      unfold execOp at h
      dsimp only at h
      rcases hl : alookup w.regs rid with _ | s
      · rw [hl] at h
        exact Option.noConfusion h
      rw [hl] at h
      dsimp only at h
      rcases hu : eventUpdateHovered rid s w.hovered pos with _ | item
      · rw [hu] at h
        exact Option.noConfusion h
      rw [hu] at h
      injection h with h
      subst h
      refine ⟨hw.nodup, fun hl' => hw.lt hl', fun hl' => hw.inv hl', ?_⟩
      intro rid' hig
      have hs : IInv s := hw.inv hl
      rcases eventUpdateHovered_cases hu with hit | hit | ⟨i, ident, hit, hidx⟩ |
        ⟨i, ident, hit, hidx⟩
      · rw [hit] at hig ⊢
        exact hw.hov hig
      · rw [hit] at hig
        exact Option.noConfusion hig
      · rw [hit] at hig ⊢
        injection hig with hig
        subst hig
        refine ⟨s, hl, Or.inl ⟨i, rfl, ?_⟩⟩
        rw [hs.textsInv.bwd hidx]
        rfl
      · rw [hit] at hig ⊢
        injection hig with hig
        subst hig
        refine ⟨s, hl, Or.inr ⟨i, rfl, ?_⟩⟩
        rw [hs.spritesInv.bwd hidx]
        rfl

/-- Invariant preservation along any operation sequence. -/
theorem execList_winv : ∀ {ops : List WOp} {w w' : World}, WInv w →
    execList ops w = some w' → WInv w'
  | [], _, _, hw, h => by
      injection h with h
      exact h ▸ hw
  | op :: ops, w, w', hw, h => by
      unfold execList at h
      rcases hstep : execOp w op with _ | w1
      · rw [hstep] at h
        exact Option.noConfusion h
      rw [hstep] at h
      exact execList_winv (execOp_winv hw hstep) h

/-- Every reachable world satisfies the process-wide invariant. -/
theorem reachableWorld_winv {w : World} (h : ReachableWorld w) : WInv w := by
  obtain ⟨ops, hops⟩ := h
  exact execList_winv WInv_worldStart hops


/-! ### Concrete states used to exercise the claims -/

/-- A registry whose single text is interactive (every element of the text
category lies in the interactive prefix). -/
def allInteractiveTexts : IState :=
  { texts := { elems := [{ interactive := true, hide := false,
                           bounds := { px := 0, py := 0, sx := 10, sy := 10 },
                           content := "a" }],
               idMap := [("a", 0)], idxMap := [(0, "a")] },
    sprites := { elems := [cursorSprite],
                 idMap := [(writingCursorIdentifier, 0)],
                 idxMap := [(0, writingCursorIdentifier)] },
    lockState := false, nbOfButtonTexts := 1, nbOfButtonSprites := 0,
    allButtons := [("a", (none, 1))], writingTextIdentifier := "",
    writingFunction := none }

/-- Modelled from the spec: the demotion order of section 4.2, which is
absent from the source in this form.  "If the removed slot is < n, first
swap it to slot n-1 (shrinking the interactive region), decrement n, and
only then perform the standard swap-remove against the (new) last slot"
(followed by the button release of section 4.4). -/
def specOrderRemoveDynamicText (id : String) (s : IState) : Option IState :=
  match alookup s.texts.idMap id with
  | none => some s
  | some index =>
      if index ≥ s.nbOfButtonTexts then
        (mutRemoveDynamicText s.lockState id s.texts).map fun c =>
          { s with texts := c }
      else
        match swapElement s.lockState index (s.nbOfButtonTexts - 1) s.texts with
        | none => none
        | some c1 =>
            match mutRemoveDynamicText s.lockState id c1 with
            | none => none
            | some c2 =>
                match decrementButton id s.allButtons with
                | none => none
                | some btns =>
                    some { s with
                             texts := c2
                             nbOfButtonTexts := s.nbOfButtonTexts - 1
                             allButtons := btns }

/-- An interactive text `A` in slot 0 and an interactive text `B` in
slot 1 whose regions overlap. -/
def overlapState : IState :=
  { texts := { elems := [{ interactive := true, hide := false,
                           bounds := { px := 0, py := 0, sx := 10, sy := 10 },
                           content := "" },
                         { interactive := true, hide := false,
                           bounds := { px := 5, py := 0, sx := 10, sy := 10 },
                           content := "" }],
               idMap := [("A", 0), ("B", 1)], idxMap := [(0, "A"), (1, "B")] },
    sprites := Cat.empty, lockState := false,
    nbOfButtonTexts := 2, nbOfButtonSprites := 0, allButtons := [],
    writingTextIdentifier := "", writingFunction := none }

/-- The previously hovered item: text `B` of registry 7. -/
def hoveredB : Item := { igui := some 7, identifier := "B", ptr := ItemPtr.text 1 }

/-- A cursor position inside both overlapping regions. -/
def overlapPos : Vec2 := { x := 6, y := 1 }

/-! ### The claims -/

/-- C1: the claim fails on the code.  On a freshly constructed registry,
whose maps contain the identifier `"x"` in neither category,
`addInteractive("x", nullptr)` is not a no-op: the unconditional
`insert_or_assign` (InteractiveInterface.cpp:107) creates the button-map
entry `"x" ↦ (null callback, reference count 0)`, contradicting the
documented fallback behaviour (InteractiveInterface.hpp:167-168) and the
count ∈ {1,2} invariant. -/
theorem addInteractive_unknown_id_not_noop :
    alookup initIState.texts.idMap "x" = none ∧
    alookup initIState.sprites.idMap "x" = none ∧
    addInteractive "x" none initIState =
      some { initIState with allButtons := [("x", (none, 0))] } ∧
    alookup [("x", ((none : Option Nat), (0 : Int)))] "x" = some (none, 0) ∧
    [("x", ((none : Option Nat), (0 : Int)))] ≠ initIState.allButtons := by
  refine ⟨rfl, rfl, rfl, rfl, ?_⟩
  intro hq
  exact List.noConfusion hq

/-- C2: the claim describes the spec's demotion-first order, and on the
state where every text is interactive that order succeeds, but the code
performs the base swap-remove first and only then swaps the removed slot
with slot `n-1`: on `allInteractiveTexts` (one text, interactive) the
second swap addresses slot `n-1 = 0` of the already-emptied vector, an
out-of-range assertion failure (undefined behaviour in release builds),
so `removeDynamicText` has no defined result there. -/
theorem remove_all_interactive_crashes :
    allInteractiveTexts.nbOfButtonTexts =
      allInteractiveTexts.texts.elems.length ∧
    alookup allInteractiveTexts.texts.idMap "a" = some 0 ∧
    iRemoveDynamicText 0 Item.empty "a" allInteractiveTexts = none ∧
    (specOrderRemoveDynamicText "a" allInteractiveTexts).isSome = true := by
  refine ⟨rfl, rfl, ?_, ?_⟩ <;> rfl

/-- C5, the claim as stated is false: with the cursor inside both
overlapping interactive texts and text `B` previously hovered (its region
still containing the cursor), `eventUpdateHovered` keeps returning `B`
via the fast path, while the full rescan (hidden slots skipped, texts
before sprites, ascending slots) returns `A` — a different item. -/
theorem fast_path_differs_from_rescan :
    hoveredB.igui = some 7 ∧ hoveredB.ptr ≠ ItemPtr.mono ∧
    (getDynamic overlapState.texts hoveredB.identifier).map
      (fun wdg => wdg.bounds.containsPos overlapPos) = some true ∧
    fastCheck overlapState hoveredB overlapPos = some true ∧
    eventUpdateHovered 7 overlapState hoveredB overlapPos = some hoveredB ∧
    fullScan 7 overlapState overlapPos =
      some { igui := some 7, identifier := "A", ptr := ItemPtr.text 0 } ∧
    ({ igui := some 7, identifier := "A", ptr := ItemPtr.text 0 } : Item) ≠
      hoveredB := by
  refine ⟨rfl, ?_, rfl, rfl, rfl, rfl, ?_⟩ <;> decide

/-- C5 amended: under the claim's hypotheses (the previously hovered item
belongs to this registry, its variant is non-empty, and its bounding
region still contains the cursor), `eventUpdateHovered` returns the
previously hovered item unchanged — not, in general, the full-rescan
result; the two coincide exactly when the full rescan's first hit is that
same item. -/
theorem fast_path_returns_previous_item {self : Nat} {s : IState}
    {hov : Item} {pos : Vec2} (hig : hov.igui = some self)
    (hptr : hov.ptr ≠ ItemPtr.mono)
    (hfast : fastCheck s hov pos = some true) :
    eventUpdateHovered self s hov pos = some hov ∧
    (fullScan self s pos = some hov →
      eventUpdateHovered self s hov pos = fullScan self s pos) := by
  have hmain : eventUpdateHovered self s hov pos = some hov := by
    unfold eventUpdateHovered
    rw [if_pos ⟨hig, hptr⟩, hfast]
  exact ⟨hmain, fun hful => by rw [hmain, hful]⟩

theorem fast_path_returns_previous_item_witness :
    eventUpdateHovered 7 overlapState hoveredB overlapPos = some hoveredB :=
  (fast_path_returns_previous_item (by rfl) (by decide) (by rfl)).1


/-- The hit test a scan applies to one slot: the slot holds a widget that
is not hidden and whose bounding region contains the cursor. -/
def widgetHit (c : Cat) (k : Nat) (pos : Vec2) : Bool :=
  match c.elems[k]? with
  | none => false
  | some w => !w.hide && w.bounds.containsPos pos

/-- Modelled from the spec (sections 4.3 and 8, tie-break policy): the
declarative result of the full scan — the first slot of the interactive
text prefix that passes the hit test, then the first such sprite slot,
resolved to an item through the reverse index map. -/
def specHoverScan (self : Nat) (s : IState) (pos : Vec2) : Item :=
  match (List.range s.nbOfButtonTexts).find? (fun k => widgetHit s.texts k pos) with
  | some k =>
      match alookup s.texts.idxMap k with
      | some ident => { igui := some self, identifier := ident, ptr := ItemPtr.text k }
      | none => Item.empty
  | none =>
      match (List.range s.nbOfButtonSprites).find?
          (fun k => widgetHit s.sprites k pos) with
      | some k =>
          match alookup s.sprites.idxMap k with
          | some ident =>
              { igui := some self, identifier := ident, ptr := ItemPtr.sprite k }
          | none => Item.empty
      | none => Item.empty

theorem scanLoop_char {c : Cat} {pos : Vec2} {nb : Nat}
    (hnb : nb ≤ c.elems.length)
    (hdyn : ∀ k, k < nb → (alookup c.idxMap k).isSome) :
    ∀ rem i, i + rem = nb →
    ∃ r, scanLoop c pos i rem = some r ∧
      (match (List.range' i rem).find? (fun k => widgetHit c k pos) with
       | none => r = none
       | some k => ∃ ident, alookup c.idxMap k = some ident ∧
           r = some (ident, k)) := by
  intro rem
  induction rem with
  | zero =>
      intro i hi
      exact ⟨none, rfl, by simp⟩
  | succ m ih =>
      intro i hi
      have hilt : i < c.elems.length := by omega
      rcases hw : c.elems[i]? with _ | w
      · rw [List.getElem?_eq_getElem hilt] at hw
        exact Option.noConfusion hw
      have hhd : widgetHit c i pos = (!w.hide && w.bounds.containsPos pos) := by
        unfold widgetHit
        rw [hw]
      by_cases hhit : (!w.hide && w.bounds.containsPos pos) = true
      · rcases hident : alookup c.idxMap i with _ | ident
        · have := hdyn i (by omega)
          rw [hident] at this
          exact Bool.noConfusion this
        refine ⟨some (ident, i), ?_, ?_⟩
        · unfold scanLoop
          rw [hw]
          dsimp only
          rw [if_pos hhit, hident]
        · rw [List.range'_succ, List.find?_cons_of_pos _ (by rw [hhd]; exact hhit)]
          exact ⟨ident, hident, rfl⟩
      · obtain ⟨r, hr, hchar⟩ := ih (i + 1) (by omega)
        refine ⟨r, ?_, ?_⟩
        · unfold scanLoop
          rw [hw]
          dsimp only
          rw [if_neg hhit]
          exact hr
        · rw [List.range'_succ, List.find?_cons_of_neg _ (by rw [hhd]; exact hhit)]
          exact hchar

/-- C6: the full-scan path computes exactly the declarative first hit:
interactive texts are scanned before interactive sprites, each in
ascending slot order, hidden slots are skipped, and the first slot whose
region contains the cursor wins.  Both sides are functions of the
registry state and cursor alone, so two calls with the same registry
state, previously-hovered state and cursor return the same item, and
overlap is resolved by the fixed category priority and then the slot
order. -/
theorem full_scan_first_hit {self : Nat} {s : IState} {pos : Vec2}
    (hs : IInv s) :
    fullScan self s pos = some (specHoverScan self s pos) := by
  obtain ⟨rt, hrt, hct⟩ := scanLoop_char hs.textsPart.le
    (fun k hk => hs.textsPart.dyn k hk) s.nbOfButtonTexts 0 (by omega)
  obtain ⟨rs, hrs, hcs⟩ := scanLoop_char hs.spritesPart.le
    (fun k hk => hs.spritesPart.dyn k hk) s.nbOfButtonSprites 0 (by omega)
  rw [← List.range_eq_range'] at hct hcs
  unfold fullScan specHoverScan
  rw [hrt]
  rcases hft : (List.range s.nbOfButtonTexts).find?
      (fun k => widgetHit s.texts k pos) with _ | k
  · rw [hft] at hct
    subst hct
    dsimp only
    rw [hrs]
    rcases hfs : (List.range s.nbOfButtonSprites).find?
        (fun k => widgetHit s.sprites k pos) with _ | k
    · rw [hfs] at hcs
      subst hcs
      rfl
    · rw [hfs] at hcs
      obtain ⟨ident, hident, hres⟩ := hcs
      subst hres
      dsimp only
      rw [hident]
  · rw [hft] at hct
    obtain ⟨ident, hident, hres⟩ := hct
    subst hres
    dsimp only
    rw [hident]

theorem full_scan_first_hit_witness :
    fullScan 7 overlapState overlapPos =
      some (specHoverScan 7 overlapState overlapPos) :=
  full_scan_first_hit (iChk_sound (by decide))


/-! ### The `MutableInterface` registry on its own (spec section 8,
swap-remove invariant) -/

/-- The state of a plain `MutableInterface`: its two widget categories.
The claims below concern an unlocked registry, so every call runs with
`lockState = false`. -/
structure MState where
  texts : Cat
  sprites : Cat
deriving DecidableEq, Repr

/-- One `MutableInterface` mutation. -/
inductive MOp where
  | addT : String → Widget → MOp
  | addS : String → Widget → MOp
  | remT : String → MOp
  | remS : String → MOp
deriving DecidableEq, Repr

/-- Execute one mutation on an unlocked `MutableInterface`. -/
def mexecOp (m : MState) : MOp → Option MState
  | MOp.addT id w => (addDynamic false id w m.texts).map fun c => { m with texts := c }
  | MOp.addS id w => (addDynamic false id w m.sprites).map fun c => { m with sprites := c }
  | MOp.remT id => (mutRemoveDynamicText false id m.texts).map fun c => { m with texts := c }
  | MOp.remS id => (mutRemoveDynamicSprite false id m.sprites).map fun c => { m with sprites := c }

/-- Execute a call sequence. -/
def mexecList : List MOp → MState → Option MState
  | [], m => some m
  | op :: ops, m =>
      match mexecOp m op with
      | none => none
      | some m' => mexecList ops m'

/-- A freshly constructed `MutableInterface`. -/
def mStart : MState := { texts := Cat.empty, sprites := Cat.empty }

theorem CatInv_cat_empty : CatInv Cat.empty :=
  catChk_sound rfl

theorem mexecOp_inv {m m' : MState} {op : MOp}
    (h1 : CatInv m.texts) (h2 : CatInv m.sprites)
    (h : mexecOp m op = some m') : CatInv m'.texts ∧ CatInv m'.sprites := by
  cases op with
  | addT id w =>
      obtain ⟨c', hadd, hmap⟩ := Option.map_eq_some'.mp h
      subst hmap
      rcases addDynamic_inv h1 hadd with ⟨_, hc⟩ | ⟨_, _, hcinv, _⟩
      · subst hc
        exact ⟨h1, h2⟩
      · exact ⟨hcinv, h2⟩
  | addS id w =>
      obtain ⟨c', hadd, hmap⟩ := Option.map_eq_some'.mp h
      subst hmap
      rcases addDynamic_inv h2 hadd with ⟨_, hc⟩ | ⟨_, _, hcinv, _⟩
      · subst hc
        exact ⟨h1, h2⟩
      · exact ⟨h1, hcinv⟩
  | remT id =>
      obtain ⟨c', hrem, hmap⟩ := Option.map_eq_some'.mp h
      subst hmap
      obtain ⟨_, hcase⟩ := mutRemoveDynamicText_inv h1 hrem
      rcases hcase with ⟨_, hc⟩ | ⟨idx, _, hpost⟩
      · subst hc
        exact ⟨h1, h2⟩
      · exact ⟨hpost.inv, h2⟩
  | remS id =>
      obtain ⟨c', hrem, hmap⟩ := Option.map_eq_some'.mp h
      subst hmap
      obtain ⟨_, hcase⟩ := mutRemoveDynamicSprite_inv h2 hrem
      rcases hcase with ⟨_, hc⟩ | ⟨idx, _, hpost⟩
      · subst hc
        exact ⟨h1, h2⟩
      · exact ⟨h1, hpost.inv⟩

theorem mexecList_inv : ∀ {ops : List MOp} {m m' : MState},
    CatInv m.texts → CatInv m.sprites → mexecList ops m = some m' →
    CatInv m'.texts ∧ CatInv m'.sprites
  | [], _, _, h1, h2, h => by
      injection h with h
      exact h ▸ ⟨h1, h2⟩
  | op :: ops, m, m', h1, h2, h => by
      unfold mexecList at h
      rcases hstep : mexecOp m op with _ | m1
      · rw [hstep] at h
        exact Option.noConfusion h
      rw [hstep] at h
      obtain ⟨h1', h2'⟩ := mexecOp_inv h1 h2 hstep
      exact mexecList_inv h1' h2' h

/-- C3: for every sequence of `addDynamicText`/`addDynamicSprite` and
`removeDynamicText`/`removeDynamicSprite` calls on an unlocked
`MutableInterface`, the identifier map, the reverse index map and the
storage stay consistent after every mutation, and after each remove the
removed identifier looks up to nothing while every remaining identifier
maps to the slot that actually holds its record. -/
theorem swap_remove_keeps_maps_in_sync {ops : List MOp} {m : MState}
    (hreach : mexecList ops mStart = some m) :
    (CatInv m.texts ∧ CatInv m.sprites) ∧
    (∀ {id : String} {m' : MState}, mexecOp m (MOp.remT id) = some m' →
      alookup m'.texts.idMap id = none ∧
      ∀ {id' : String} {v : Nat}, id' ≠ id →
        alookup m.texts.idMap id' = some v →
        ∃ j wrec, alookup m'.texts.idMap id' = some j ∧
          m.texts.elems[v]? = some wrec ∧ m'.texts.elems[j]? = some wrec) ∧
    (∀ {id : String} {m' : MState}, mexecOp m (MOp.remS id) = some m' →
      alookup m'.sprites.idMap id = none ∧
      ∀ {id' : String} {v : Nat}, id' ≠ id →
        alookup m.sprites.idMap id' = some v →
        ∃ j wrec, alookup m'.sprites.idMap id' = some j ∧
          m.sprites.elems[v]? = some wrec ∧ m'.sprites.elems[j]? = some wrec) := by
  obtain ⟨h1, h2⟩ := mexecList_inv CatInv_cat_empty CatInv_cat_empty hreach
  refine ⟨⟨h1, h2⟩, ?_, ?_⟩
  · intro id m' h
    obtain ⟨c', hrem, hmap⟩ := Option.map_eq_some'.mp h
    subst hmap
    obtain ⟨_, hcase⟩ := mutRemoveDynamicText_inv h1 hrem
    rcases hcase with ⟨habs, hc⟩ | ⟨idx, hidx, hpost⟩
    · subst hc
      refine ⟨habs, ?_⟩
      intro id' v hne hv
      have hvlt := h1.range hv
      exact ⟨v, m.texts.elems[v], hv, List.getElem?_eq_getElem hvlt,
        List.getElem?_eq_getElem hvlt⟩
    · refine ⟨hpost.gone, ?_⟩
      intro id' v hne hv
      have hvlt := h1.range hv
      obtain ⟨hmap', helem'⟩ := hpost.keep hne hv
      exact ⟨transp idx (m.texts.elems.length - 1) v, m.texts.elems[v],
        hmap', List.getElem?_eq_getElem hvlt,
        by rw [helem']; exact List.getElem?_eq_getElem hvlt⟩
  · intro id m' h
    obtain ⟨c', hrem, hmap⟩ := Option.map_eq_some'.mp h
    subst hmap
    obtain ⟨_, hcase⟩ := mutRemoveDynamicSprite_inv h2 hrem
    rcases hcase with ⟨habs, hc⟩ | ⟨idx, hidx, hpost⟩
    · subst hc
      refine ⟨habs, ?_⟩
      intro id' v hne hv
      have hvlt := h2.range hv
      exact ⟨v, m.sprites.elems[v], hv, List.getElem?_eq_getElem hvlt,
        List.getElem?_eq_getElem hvlt⟩
    · refine ⟨hpost.gone, ?_⟩
      intro id' v hne hv
      have hvlt := h2.range hv
      obtain ⟨hmap', helem'⟩ := hpost.keep hne hv
      exact ⟨transp idx (m.sprites.elems.length - 1) v, m.sprites.elems[v],
        hmap', List.getElem?_eq_getElem hvlt,
        by rw [helem']; exact List.getElem?_eq_getElem hvlt⟩

/-- A plain visible widget used in the concrete runs below. -/
def probeWidget : Widget :=
  { interactive := false, hide := false,
    bounds := { px := 0, py := 0, sx := 10, sy := 10 }, content := "" }

/-- The registry after adding the single dynamic text `a`. -/
def mSample : MState :=
  { texts := { elems := [{ probeWidget with interactive := false }],
               idMap := [("a", 0)], idxMap := [(0, "a")] },
    sprites := Cat.empty }

theorem swap_remove_keeps_maps_in_sync_witness :
    mexecOp mSample (MOp.remT "a") = some mStart ∧
    alookup mStart.texts.idMap "a" = none := by
  have hreach : mexecList [MOp.addT "a" probeWidget] mStart = some mSample := by
    decide
  have hres : mexecOp mSample (MOp.remT "a") = some mStart := by decide
  obtain ⟨hmain, hrem, _⟩ := swap_remove_keeps_maps_in_sync hreach
  exact ⟨hres, (hrem hres).1⟩


/-- The operation run used by the concrete reachability checks: construct
a registry, add the dynamic text `a`, promote it, add the dynamic text
`b`, then update the hovered item with the cursor at (1, 1). -/
def sampleOps : List WOp :=
  [WOp.create, WOp.addDynText 0 "a" probeWidget, WOp.interact 0 "a" none,
   WOp.addDynText 0 "b" probeWidget, WOp.moveHover 0 { x := 1, y := 1 }]

/-- The registry state `sampleOps` produces. -/
def sampleState : IState :=
  { texts := { elems := [{ interactive := true, hide := false,
                           bounds := { px := 0, py := 0, sx := 10, sy := 10 },
                           content := "" },
                         { interactive := false, hide := false,
                           bounds := { px := 0, py := 0, sx := 10, sy := 10 },
                           content := "" }],
               idMap := [("a", 0), ("b", 1)], idxMap := [(0, "a"), (1, "b")] },
    sprites := { elems := [cursorSprite],
                 idMap := [(writingCursorIdentifier, 0)],
                 idxMap := [(0, writingCursorIdentifier)] },
    lockState := false, nbOfButtonTexts := 1, nbOfButtonSprites := 0,
    allButtons := [("a", (none, 1))], writingTextIdentifier := "",
    writingFunction := none }

/-- The world `sampleOps` produces. -/
def sampleWorld : World :=
  { regs := [(0, sampleState)],
    hovered := { igui := some 0, identifier := "a", ptr := ItemPtr.text 0 },
    nextId := 1 }

/-- C4: in every state reachable by any operation sequence, for each
category independently, a slot holds a promoted (interactive) widget
exactly when its index lies below that category's interactive count
(`m_nbOfButtonTexts` / `m_nbOfButtonSprites`). -/
theorem partition_invariant {w : World} (hw : ReachableWorld w)
    {rid : Nat} {s : IState} (hreg : alookup w.regs rid = some s) :
    (∀ {i : Nat} {wt : Widget}, s.texts.elems[i]? = some wt →
      (wt.interactive = true ↔ i < s.nbOfButtonTexts)) ∧
    (∀ {i : Nat} {ws : Widget}, s.sprites.elems[i]? = some ws →
      (ws.interactive = true ↔ i < s.nbOfButtonSprites)) := by
  have hinv := (reachableWorld_winv hw).inv hreg
  exact ⟨fun h => hinv.textsPart.flag h, fun h => hinv.spritesPart.flag h⟩

theorem partition_invariant_witness :
    (∀ {i : Nat} {wt : Widget}, sampleState.texts.elems[i]? = some wt →
      (wt.interactive = true ↔ i < sampleState.nbOfButtonTexts)) ∧
    (∀ {i : Nat} {ws : Widget}, sampleState.sprites.elems[i]? = some ws →
      (ws.interactive = true ↔ i < sampleState.nbOfButtonSprites)) :=
  @partition_invariant sampleWorld ⟨sampleOps, by decide⟩ 0 sampleState
    (by decide)

/-- C9: the process-wide hovered item never refers to a destroyed
registry or to a removed widget: in every reachable world, whenever it
points at a registry, that registry is live, and the identifier it names
is still registered in the category its pointer variant designates. -/
theorem hovered_never_dangles {w : World} (hw : ReachableWorld w)
    {rid : Nat} (hig : w.hovered.igui = some rid) :
    ∃ s, alookup w.regs rid = some s ∧
      ((∃ i, w.hovered.ptr = ItemPtr.text i ∧
        (alookup s.texts.idMap w.hovered.identifier).isSome) ∨
       (∃ i, w.hovered.ptr = ItemPtr.sprite i ∧
        (alookup s.sprites.idMap w.hovered.identifier).isSome)) :=
  (reachableWorld_winv hw).hov hig

theorem hovered_never_dangles_witness :
    ∃ s, alookup sampleWorld.regs 0 = some s ∧
      ((∃ i, sampleWorld.hovered.ptr = ItemPtr.text i ∧
        (alookup s.texts.idMap sampleWorld.hovered.identifier).isSome) ∨
       (∃ i, sampleWorld.hovered.ptr = ItemPtr.sprite i ∧
        (alookup s.sprites.idMap sampleWorld.hovered.identifier).isSome)) :=
  @hovered_never_dangles sampleWorld ⟨sampleOps, by decide⟩ 0 (by decide)


/-- C7: with an identifier interactive in both categories behind one
button entry of reference count 2 and a non-null callback, removing the
widget of either category first leaves the entry with count 1 and the
callback still invocable through a hovered item naming this registry and
identifier; removing the widget of the remaining category afterwards
erases the entry, and a subsequent press for that identifier invokes
nothing. Both removal orders — text then sprite, and sprite then
text — are covered. -/
theorem shared_button_refcount {self : Nat} {hov : Item} {id : String}
    {s : IState} {f ti si : Nat}
    (hs : IInv s) (hnodup : (akeys s.allButtons).Nodup)
    (hti : alookup s.texts.idMap id = some ti)
    (htilt : ti < s.nbOfButtonTexts)
    (hsi : alookup s.sprites.idMap id = some si)
    (hsilt : si < s.nbOfButtonSprites)
    (hbtn : alookup s.allButtons id = some (some f, 2)) :
    (∀ {s1 : IState} {hov1 : Item},
      iRemoveDynamicText self hov id s = some (s1, hov1) →
      alookup s1.allButtons id = some (some f, 1) ∧
      (∀ hovS : Item, hovS.igui = some self → hovS.identifier = id →
        eventPressedCore self s1 hovS = some f) ∧
      (∀ {s2 : IState} {hov2 : Item},
        iRemoveDynamicSprite self hov1 id s1 = some (s2, hov2) →
        alookup s2.allButtons id = none ∧
        ∀ hovS : Item, hovS.identifier = id →
          eventPressedCore self s2 hovS = none)) ∧
    (∀ {s1 : IState} {hov1 : Item},
      iRemoveDynamicSprite self hov id s = some (s1, hov1) →
      alookup s1.allButtons id = some (some f, 1) ∧
      (∀ hovS : Item, hovS.igui = some self → hovS.identifier = id →
        eventPressedCore self s1 hovS = some f) ∧
      (∀ {s2 : IState} {hov2 : Item},
        iRemoveDynamicText self hov1 id s1 = some (s2, hov2) →
        alookup s2.allButtons id = none ∧
        ∀ hovS : Item, hovS.identifier = id →
          eventPressedCore self s2 hovS = none)) := by
  constructor
  · intro s1 hov1 hrem1
    obtain ⟨hinv1, hsprmap1, hnbs1, _, hdisj⟩ := iRemoveDynamicText_inv hs hrem1
    rcases hdisj with ⟨_, _, habs⟩ | ⟨index, hidx, _, _, hbr⟩
    · rw [hti] at habs
      exact Option.noConfusion habs
    have hieq : index = ti := Option.some.inj (hidx.symm.trans hti)
    subst hieq
    rcases hbr with ⟨hge, _, _⟩ | ⟨hlt, hdec, hnb1⟩
    · exact absurd hge (by omega)
    have h21 : (2 : Int) - 1 = 1 := by decide
    have hbtns1 : s1.allButtons = aset s.allButtons id (some f, 1) := by
      unfold decrementButton at hdec
      rw [hbtn] at hdec
      dsimp only at hdec
      rw [if_neg (by decide : ¬ ((2 : Int) - 1 ≤ 0)), h21] at hdec
      exact (Option.some.inj hdec).symm
    refine ⟨?_, ?_, ?_⟩
    · rw [hbtns1, alookup_aset_self]
    · intro hovS hig hident
      unfold eventPressedCore
      rw [if_neg (fun hq => hq hig), hident, hbtns1, alookup_aset_self]
    · intro s2 hov2 hrem2
      have hsi1 : alookup s1.sprites.idMap id = some si := by
        rw [hsprmap1]
        exact hsi
      have hsilt1 : si < s1.nbOfButtonSprites := by omega
      obtain ⟨hinv2, _, _, _, hdisj2⟩ := iRemoveDynamicSprite_inv hinv1 hrem2
      rcases hdisj2 with ⟨_, _, habs⟩ | ⟨index2, hidx2, _, _, hbr2⟩
      · rw [hsi1] at habs
        exact Option.noConfusion habs
      have hieq2 : index2 = si := Option.some.inj (hidx2.symm.trans hsi1)
      subst hieq2
      rcases hbr2 with ⟨hge2, _, _⟩ | ⟨hlt2, hdec2, _⟩
      · exact absurd hge2 (by omega)
      have hnodup1 : (akeys s1.allButtons).Nodup := by
        rw [hbtns1]
        exact nodup_akeys_aset _ hnodup
      have hbtns2 : s2.allButtons = aerase s1.allButtons id := by
        unfold decrementButton at hdec2
        rw [hbtns1, alookup_aset_self] at hdec2
        dsimp only at hdec2
        rw [if_pos (by decide : (1 : Int) - 1 ≤ 0)] at hdec2
        have := Option.some.inj hdec2
        rw [← this, hbtns1]
      have hgone : alookup s2.allButtons id = none := by
        rw [hbtns2]
        exact alookup_aerase_self hnodup1
      refine ⟨hgone, ?_⟩
      intro hovS hident
      unfold eventPressedCore
      by_cases hig : hovS.igui ≠ some self
      · rw [if_pos hig]
      · rw [if_neg hig, hident, hgone]
  · intro s1 hov1 hrem1
    obtain ⟨hinv1, htxmap1, hnbt1, _, hdisj⟩ :=
      iRemoveDynamicSprite_inv hs hrem1
    rcases hdisj with ⟨_, _, habs⟩ | ⟨index, hidx, _, _, hbr⟩
    · rw [hsi] at habs
      exact Option.noConfusion habs
    have hieq : index = si := Option.some.inj (hidx.symm.trans hsi)
    subst hieq
    rcases hbr with ⟨hge, _, _⟩ | ⟨hlt, hdec, hnb1⟩
    · exact absurd hge (by omega)
    have h21 : (2 : Int) - 1 = 1 := by decide
    have hbtns1 : s1.allButtons = aset s.allButtons id (some f, 1) := by
      unfold decrementButton at hdec
      rw [hbtn] at hdec
      dsimp only at hdec
      rw [if_neg (by decide : ¬ ((2 : Int) - 1 ≤ 0)), h21] at hdec
      exact (Option.some.inj hdec).symm
    refine ⟨?_, ?_, ?_⟩
    · rw [hbtns1, alookup_aset_self]
    · intro hovS hig hident
      unfold eventPressedCore
      rw [if_neg (fun hq => hq hig), hident, hbtns1, alookup_aset_self]
    · intro s2 hov2 hrem2
      have hti1 : alookup s1.texts.idMap id = some ti := by
        rw [htxmap1]
        exact hti
      have htilt1 : ti < s1.nbOfButtonTexts := by omega
      obtain ⟨hinv2, _, _, _, hdisj2⟩ := iRemoveDynamicText_inv hinv1 hrem2
      rcases hdisj2 with ⟨_, _, habs⟩ | ⟨index2, hidx2, _, _, hbr2⟩
      · rw [hti1] at habs
        exact Option.noConfusion habs
      have hieq2 : index2 = ti := Option.some.inj (hidx2.symm.trans hti1)
      subst hieq2
      rcases hbr2 with ⟨hge2, _, _⟩ | ⟨hlt2, hdec2, _⟩
      · exact absurd hge2 (by omega)
      have hnodup1 : (akeys s1.allButtons).Nodup := by
        rw [hbtns1]
        exact nodup_akeys_aset _ hnodup
      have hbtns2 : s2.allButtons = aerase s1.allButtons id := by
        unfold decrementButton at hdec2
        rw [hbtns1, alookup_aset_self] at hdec2
        dsimp only at hdec2
        rw [if_pos (by decide : (1 : Int) - 1 ≤ 0)] at hdec2
        have := Option.some.inj hdec2
        rw [← this, hbtns1]
      have hgone : alookup s2.allButtons id = none := by
        rw [hbtns2]
        exact alookup_aerase_self hnodup1
      refine ⟨hgone, ?_⟩
      intro hovS hident
      unfold eventPressedCore
      by_cases hig : hovS.igui ≠ some self
      · rw [if_pos hig]
      · rw [if_neg hig, hident, hgone]

/-- The registry holding the text `x`, the text `t`, the sprite `x` and
the cursor sprite, with `x` interactive in both categories behind one
button entry of count 2 (spec section 8, Scenario A). -/
def sharedButtonState : IState :=
  { texts := { elems := [{ interactive := true, hide := false,
                           bounds := { px := 0, py := 0, sx := 10, sy := 10 },
                           content := "" },
                         { interactive := false, hide := false,
                           bounds := { px := 0, py := 0, sx := 10, sy := 10 },
                           content := "" }],
               idMap := [("x", 0), ("t", 1)], idxMap := [(0, "x"), (1, "t")] },
    sprites := { elems := [{ interactive := true, hide := false,
                             bounds := { px := 0, py := 0, sx := 10, sy := 10 },
                             content := "" }, cursorSprite],
                 idMap := [("x", 0), (writingCursorIdentifier, 1)],
                 idxMap := [(0, "x"), (1, writingCursorIdentifier)] },
    lockState := false, nbOfButtonTexts := 1, nbOfButtonSprites := 1,
    allButtons := [("x", (some 5, 2))], writingTextIdentifier := "",
    writingFunction := none }

theorem shared_button_refcount_witness :
    (∃ s1 hov1, iRemoveDynamicText 0 Item.empty "x" sharedButtonState =
      some (s1, hov1) ∧ alookup s1.allButtons "x" = some (some 5, 1)) ∧
    (∃ s1 hov1, iRemoveDynamicSprite 0 Item.empty "x" sharedButtonState =
      some (s1, hov1) ∧ alookup s1.allButtons "x" = some (some 5, 1)) := by
  have hmain := @shared_button_refcount 0 Item.empty "x" sharedButtonState 5 0 0
    (iChk_sound (by decide)) (by decide) (by decide) (by decide)
    (by decide) (by decide) (by decide)
  constructor
  · rcases hres : iRemoveDynamicText 0 Item.empty "x" sharedButtonState
      with _ | p
    · exact absurd hres (by decide)
    obtain ⟨s1, hov1⟩ := p
    exact ⟨s1, hov1, rfl, (hmain.1 hres).1⟩
  · rcases hres : iRemoveDynamicSprite 0 Item.empty "x" sharedButtonState
      with _ | p
    · exact absurd hres (by decide)
    obtain ⟨s1, hov1⟩ := p
    exact ⟨s1, hov1, rfl, (hmain.2 hres).1⟩

/-- C8: every operation handed an identifier the registry does not know is
a silent no-op: the two removes return the state and hovered item
unchanged (and in particular hit no assertion), the two lookups return
null, and a press whose hovered identifier has no button entry, or whose
entry carries a null callback, invokes nothing. -/
theorem unknown_identifier_silent {self : Nat} {hov : Item} {id : String}
    {s : IState}
    (ht : alookup s.texts.idMap id = none)
    (hsp : alookup s.sprites.idMap id = none)
    (hb : alookup s.allButtons id = none) :
    iRemoveDynamicText self hov id s = some (s, hov) ∧
    iRemoveDynamicSprite self hov id s = some (s, hov) ∧
    getDynamic s.texts id = none ∧
    getDynamic s.sprites id = none ∧
    (∀ hovS : Item, hovS.identifier = id →
      eventPressedCore self s hovS = none) ∧
    (∀ (hovS : Item) (id2 : String) (cnt : Int), hovS.identifier = id2 →
      alookup s.allButtons id2 = some (none, cnt) →
      eventPressedCore self s hovS = none) := by
  refine ⟨?_, ?_, ?_, ?_, ?_, ?_⟩
  · unfold iRemoveDynamicText
    rw [ht]
  · unfold iRemoveDynamicSprite
    rw [hsp]
  · unfold getDynamic
    rw [ht]
  · unfold getDynamic
    rw [hsp]
  · intro hovS hident
    unfold eventPressedCore
    by_cases hig : hovS.igui ≠ some self
    · rw [if_pos hig]
    · rw [if_neg hig, hident, hb]
  · intro hovS id2 cnt hident hbtn2
    unfold eventPressedCore
    by_cases hig : hovS.igui ≠ some self
    · rw [if_pos hig]
    · rw [if_neg hig, hident, hbtn2]

theorem unknown_identifier_silent_witness :
    iRemoveDynamicText 0 Item.empty "zz" initIState =
      some (initIState, Item.empty) ∧
    getDynamic initIState.texts "zz" = none :=
  ⟨(@unknown_identifier_silent 0 Item.empty "zz" initIState
      (by decide) (by decide) (by decide)).1,
   (@unknown_identifier_silent 0 Item.empty "zz" initIState
      (by decide) (by decide) (by decide)).2.2.1⟩

/-- C10: `eventPressed` invokes a callback exactly when the passed
interface is an interactive registry, the hovered item's owning registry
is that very instance, and the button map holds a non-null callback under
the hovered identifier; so an empty hovered item, a hovered item of a
different registry, or a non-interactive interface produce no invocation.
The embedding of the body is a pure reader, mirroring the source, which
only reads `m_allButtons` and mutates nothing. -/
theorem pressed_only_matching_registry (arg : GuiRef)
    (stateOf : Nat → Option IState) (hov : Item) (f : Nat) :
    (eventPressed arg stateOf hov = some f ↔
      ∃ rid s cnt, arg = GuiRef.interactive rid ∧ stateOf rid = some s ∧
        hov.igui = some rid ∧
        alookup s.allButtons hov.identifier = some (some f, cnt)) ∧
    (hov = Item.empty → eventPressed arg stateOf hov = none) := by
  constructor
  · constructor
    · intro h
      cases arg with
      | basic => exact Option.noConfusion h
      | interactive rid =>
          unfold eventPressed at h
          dsimp only at h
          rcases hst : stateOf rid with _ | s
          · rw [hst] at h
            exact Option.noConfusion h
          rw [hst] at h
          dsimp only at h
          unfold eventPressedCore at h
          by_cases hig : hov.igui ≠ some rid
          · rw [if_pos hig] at h
            exact Option.noConfusion h
          rw [if_neg hig] at h
          push_neg at hig
          rcases hlk : alookup s.allButtons hov.identifier with _ | entry
          · rw [hlk] at h
            exact Option.noConfusion h
          rw [hlk] at h
          obtain ⟨fn, cnt⟩ := entry
          dsimp only at h
          subst h
          exact ⟨rid, s, cnt, rfl, hst, hig, hlk⟩
    · intro ⟨rid, s, cnt, harg, hst, hig, hlk⟩
      subst harg
      unfold eventPressed eventPressedCore
      dsimp only
      rw [hst]
      dsimp only
      rw [if_neg (fun hq => hq hig), hlk]
  · intro hemp
    subst hemp
    cases arg with
    | basic => rfl
    | interactive rid =>
        unfold eventPressed
        dsimp only
        rcases hst : stateOf rid with _ | s
        · rfl
        · dsimp only
          unfold eventPressedCore
          rw [if_pos (show Item.empty.igui ≠ some rid from
            fun hq => Option.noConfusion hq)]

theorem pressed_only_matching_registry_witness :
    eventPressed GuiRef.basic (fun _ => none) Item.empty = none ∧
    eventPressed (GuiRef.interactive 0)
      (fun r => if r = 0 then some sharedButtonState else none)
      { igui := some 0, identifier := "x", ptr := ItemPtr.text 0 } = some 5 := by
  refine ⟨(pressed_only_matching_registry _ _ _ 0).2 rfl, ?_⟩
  exact (pressed_only_matching_registry _ _ _ 5).1.mpr
    ⟨0, sharedButtonState, 2, rfl, by decide, rfl, by decide⟩


end SIFL
